import Mathlib

/-!
Shallow embedding of the tic-tac-toe engine from
`tic_tac_toe_abstract.py` (class `TicTacToeAbstract`) and
`tic_tac_toe_4x4.py` (class `TicTacToe4x4`), together with proofs about
the claims of the specification.

Python cells are strings: `""` is an empty cell, `"X"` / `"O"` are the
player marks (`enums.Player.X.value = "X"`, `enums.Player.O.value = "O"`);
an externally supplied grid may contain arbitrary other strings, which the
board validation rejects.  Coordinates handed to `make_move` are Python
integers, modelled as `Int`; the board itself is a row-major list of rows
of strings, exactly as in Python.  `set`s of coordinates become `Finset`s,
`None` becomes `Option.none`, raised `ValueError`s become `Except.error`.
-/

/-- `enums.Player`: the two-valued player tag. -/
inductive Player where
  | X : Player
  | O : Player
deriving DecidableEq, Repr

/-- `Player.value` in `enums.py`: `X = 'X'`, `O = 'O'`. -/
def Player.value : Player → String
  | .X => "X"
  | .O => "O"

/-- Turn alternation: `Player.O if current == Player.X else Player.X`. -/
def Player.flip : Player → Player
  | .X => .O
  | .O => .X

/-- Inverse of `Player.value`, used where the Python code calls
`Player(symbol)` on a symbol taken from the board.  On a validated board
the symbol is always `"X"` or `"O"`; `Player(junk)` would raise in Python,
which is unreachable after validation and modelled as `none`. -/
def strPlayer (s : String) : Option Player :=
  if s = "X" then some Player.X else if s = "O" then some Player.O else none

/-- The engine state: the fields of `TicTacToeAbstract`
(`_size`, `_board`, `_empty_cells`, `_x_count`, `_o_count`,
`_current_player`, `_winner`). -/
structure Engine where
  size : Nat
  board : List (List String)
  empty_cells : Finset (Int × Int)
  x_count : Nat
  o_count : Nat
  current_player : Player
  winner : Option Player
deriving DecidableEq

/-- `self._board[r][c]` for in-range indices (all reads in the source are
guarded to be in range; out-of-range reads return the default `""` here,
whereas Python would raise or wrap, but no such read is reachable). -/
def getCell (b : List (List String)) (r c : Nat) : String :=
  (b.getD r []).getD c ""

/-- `self._board[r][c] = v` for in-range indices (`List.set` is the
in-range write; the source only writes in range). -/
def setCell (b : List (List String)) (r c : Nat) (v : String) : List (List String) :=
  b.set r ((b.getD r []).set c v)

/-- Python `range(a, b)`: the list `[a, a+1, ..., b-1]`. -/
def pyRange (a b : Nat) : List Nat :=
  List.range' a (b - a)

/-- `TicTacToeAbstract._count_moves`: count the `"X"` and `"O"` cells,
returning `none` (Python `(None, None)`) as soon as any other non-empty
symbol is found. -/
def countCellStep (a : Option (Nat × Nat)) (cell : String) : Option (Nat × Nat) :=
  match a with
  | none => none
  | some (x, o) =>
    if cell = "X" then some (x + 1, o)
    else if cell = "O" then some (x, o + 1)
    else if cell = "" then some (x, o)
    else none

/-- `TicTacToeAbstract._count_moves` over the whole board. -/
def countMoves (b : List (List String)) : Option (Nat × Nat) :=
  b.foldl (fun a row => row.foldl countCellStep a) (some (0, 0))

/-- `TicTacToeAbstract._is_valid_board`: dimensions are `size × size`,
the symbol counts exist (no junk symbol), `x_count` is non-zero
(Python truthiness of `x_count`) and `|x_count - o_count| <= 1`. -/
def isValidBoard (size : Nat) (g : List (List String)) : Bool :=
  if g.length ≠ size || g.any (fun row => row.length ≠ size) then false
  else
    match countMoves g with
    | none => false
    | some (x, o) => x ≠ 0 && ((x : Int) - (o : Int)).natAbs ≤ 1

/-- The coordinate set `{(r, c) for r in range(size) for c in range(size)}`
(used by `_initialize_new_board`), with Python ints modelled as `Int`. -/
def allCoords (size : Nat) : Finset (Int × Int) :=
  (Finset.range size ×ˢ Finset.range size).image
    (fun rc => ((rc.1 : Int), (rc.2 : Int)))

/-- The set comprehension of `_initialize_from_state`:
`{(r, c) ... if not initial_state[r][c]}`. -/
def emptyCellsOf (size : Nat) (g : List (List String)) : Finset (Int × Int) :=
  ((Finset.range size ×ˢ Finset.range size).filter
    (fun rc => getCell g rc.1 rc.2 = "")).image
    (fun rc => ((rc.1 : Int), (rc.2 : Int)))

/-- `TicTacToeAbstract._initialize_new_board` plus the current-player
assignment of `__init__` when no initial state is supplied. -/
def newEngine (size : Nat) (cp : Option Player) : Engine :=
  { size := size
    board := List.replicate size (List.replicate size "")
    empty_cells := allCoords size
    x_count := 0
    o_count := 0
    current_player := cp.getD Player.X
    winner := none }

/-- `TicTacToeAbstract.reset`: clear the board, counters, winner, and set
the current player to X. -/
def resetEngine (e : Engine) : Engine :=
  { size := e.size
    board := List.replicate e.size (List.replicate e.size "")
    empty_cells := allCoords e.size
    x_count := 0
    o_count := 0
    current_player := Player.X
    winner := none }

/-- The body of the abstract `TicTacToeAbstract.is_winning_move` after its
move-count pre-check: full row `row`, full column `col`, and — whenever
`row == col or row + col == size - 1` — either full diagonal, all checked
for the current (just-moved) player's symbol.  The row check uses `all`,
the column and diagonal checks count matching cells and compare with
`size`, exactly as the Python `sum(...) == size` does. -/
def absWinCore (e : Engine) (row col : Nat) : Bool :=
  let player := e.current_player.value
  if (List.range e.size).all (fun i => getCell e.board row i == player) then true
  else if ((List.range e.size).countP (fun i => getCell e.board i col == player)) = e.size then true
  else if row = col || row + col = e.size - 1 then
    ((List.range e.size).countP (fun i => getCell e.board i i == player) = e.size
      || (List.range e.size).countP (fun i => getCell e.board i (e.size - 1 - i) == player) = e.size)
  else false

/-- `TicTacToeAbstract.is_winning_move`: Python returns `None` (modelled
as `none`) when both players still have fewer than `size` moves, and
otherwise `True`/`False` (modelled `some true`/`some false`) from the
checks in `absWinCore`. -/
def absIsWinningMove (e : Engine) (row col : Nat) : Option Bool :=
  if e.o_count < e.size ∧ e.x_count < e.size then none
  else some (absWinCore e row col)

/-- Python truthiness of the abstract `is_winning_move` result
(`None` is falsy). -/
def optTruthy : Option Bool → Bool
  | none => false
  | some b => b

/-- `self._corners` of `TicTacToe4x4`. -/
def cornersL : List (Nat × Nat) := [(0, 0), (0, 3), (3, 0), (3, 3)]

/-- `TicTacToe4x4._is_2x2_box_filled`: the set of the four cell values of
the 2x2 box anchored at `(row, col)` has exactly one element (Python
`len(set(...)) == 1`) and the anchor cell is not empty. -/
def isBox2x2Filled (b : List (List String)) (row col : Nat) : Bool :=
  (({getCell b row col, getCell b row (col + 1),
     getCell b (row + 1) col, getCell b (row + 1) (col + 1)} : Finset String).card == 1)
    && (getCell b row col != "")

/-- `TicTacToe4x4._is_winning_2x2_move`: scan the anchors
`range(max(0, row-1), min(3, row+1)) × range(max(0, col-1), min(3, col+1))`
for a filled box.  (For `row = 0` Python computes `max(0, -1) = 0`; the
truncated `Nat` subtraction `0 - 1 = 0` agrees.) -/
def isWinning2x2Move (b : List (List String)) (row col : Nat) : Bool :=
  (pyRange (max 0 (row - 1)) (min 3 (row + 1))).any fun i =>
    (pyRange (max 0 (col - 1)) (min 3 (col + 1))).any fun j =>
      isBox2x2Filled b i j

/-- The corner/2x2 tail of `TicTacToe4x4.is_winning_move` (everything
after the generic check and the per-player count guard). -/
def extra4 (e : Engine) (row col : Nat) : Bool :=
  if cornersL.contains (row, col)
      && cornersL.all (fun rc => getCell e.board rc.1 rc.2 == e.current_player.value) then true
  else isWinning2x2Move e.board row col

/-- `TicTacToe4x4.is_winning_move`: generic check first (truthily), then
the per-player count guard `player_count < self.size`, then corners and
2x2 boxes. -/
def isWinningMove4 (e : Engine) (row col : Nat) : Bool :=
  if optTruthy (absIsWinningMove e row col) then true
  else
    let player_count := if e.current_player = Player.X then e.x_count else e.o_count
    if player_count < e.size then false
    else extra4 e row col

/-- The scanning body of the abstract `TicTacToeAbstract.check_winner`
(after the cache and count guard): rows and columns interleaved, then the
main diagonal, then the anti-diagonal; the first uniform non-empty line
wins, the inner comparisons running over `range(1, size)` exactly as the
Python generator expressions do. -/
def absScanCore (e : Engine) : Option Player :=
  match (List.range e.size).findSome? (fun i =>
    if getCell e.board i 0 != ""
        && (pyRange 1 e.size).all (fun j => getCell e.board i j == getCell e.board i 0) then
      strPlayer (getCell e.board i 0)
    else if getCell e.board 0 i != ""
        && (pyRange 1 e.size).all (fun j => getCell e.board j i == getCell e.board 0 i) then
      strPlayer (getCell e.board 0 i)
    else none) with
  | some p => some p
  | none =>
    if getCell e.board 0 0 != ""
        && (pyRange 1 e.size).all (fun i => getCell e.board i i == getCell e.board 0 0) then
      strPlayer (getCell e.board 0 0)
    else if getCell e.board 0 (e.size - 1) != ""
        && (pyRange 1 e.size).all
          (fun i => getCell e.board i (e.size - 1 - i) == getCell e.board 0 (e.size - 1)) then
      strPlayer (getCell e.board 0 (e.size - 1))
    else none

/-- `TicTacToeAbstract.check_winner`: cached winner first (Python
truthiness of `self._winner`), then the count guard, then the scan. -/
def absCheckWinner (e : Engine) : Option Player :=
  if e.winner.isSome then e.winner
  else if e.o_count < e.size ∧ e.x_count < e.size then none
  else absScanCore e

/-- `TicTacToe4x4._find_2x2_winner`: row-major scan of the nine 2x2
anchors for a non-empty filled box. -/
def find2x2Winner (b : List (List String)) : Option Player :=
  (List.range 3).findSome? fun i =>
    (List.range 3).findSome? fun j =>
      if getCell b i j != "" && isBox2x2Filled b i j then strPlayer (getCell b i j)
      else none

/-- The corner/2x2 tail of `TicTacToe4x4.check_winner` (everything after
the delegated generic scan). -/
def tail4 (e : Engine) : Option Player :=
  let cv := getCell e.board 0 0
  if cv != "" && cornersL.all (fun rc => getCell e.board rc.1 rc.2 == cv) then strPlayer cv
  else find2x2Winner e.board

/-- `TicTacToe4x4.check_winner`: generic scan first, then corners, then
2x2 boxes. -/
def checkWinner4 (e : Engine) : Option Player :=
  match absCheckWinner e with
  | some p => some p
  | none => tail4 e

/-- `TicTacToeAbstract.make_move`, parameterized over the (virtually
dispatched) `is_winning_move` hook: validity check by membership in
`_empty_cells`, then place the mark, remove the cell, bump the mover's
count, run the win check on the updated position, and flip the player
unconditionally.  Coordinates are Python ints (`Int`); they are known to
be non-negative whenever the membership test succeeds on a well-formed
engine, so converting with `toNat` for the list accesses is faithful.
`movedState` is the state after the three mutation lines of `make_move`
(mark placed, cell removed, count bumped). -/
def movedState (e : Engine) (row col : Int) : Engine :=
  { e with
    board := setCell e.board row.toNat col.toNat e.current_player.value
    empty_cells := e.empty_cells.erase (row, col)
    x_count := if e.current_player = Player.X then e.x_count + 1 else e.x_count
    o_count := if e.current_player = Player.O then e.o_count + 1 else e.o_count }

/-- The successful branch of `make_move`: `movedState` is `self` at the
point where `is_winning_move(row, col)` is called; set the winner if the
hook fires, then flip the player unconditionally and return. -/
def makeMoveApply (wcheck : Engine → Nat → Nat → Bool) (e : Engine) (row col : Int) :
    Engine :=
  let e1 := movedState e row col
  let e2 : Engine :=
    if wcheck e1 row.toNat col.toNat then { e1 with winner := some e1.current_player }
    else e1
  { e2 with current_player := e.current_player.flip }

def makeMoveWith (wcheck : Engine → Nat → Nat → Bool) (e : Engine) (row col : Int) :
    Bool × Engine :=
  if (row, col) ∈ e.empty_cells then (true, makeMoveApply wcheck e row col)
  else (false, e)

/-- `make_move` of the concrete 4x4 engine. -/
def makeMove4 (e : Engine) (row col : Int) : Bool × Engine :=
  makeMoveWith isWinningMove4 e row col

/-- `TicTacToeAbstract._initialize_from_state`, parameterized over the
subclass `check_winner` hook: validate the supplied grid, derive the empty
cells and the counts, validate or infer the current player, then compute
the winner by a full scan.  Raised `ValueError`s become `Except.error`
(the inner `none` branch of `countMoves` is unreachable after
validation). -/
def initFromState (size : Nat) (checkW : Engine → Option Player)
    (g : List (List String)) (cp : Option Player) : Except String Engine :=
  if ¬ isValidBoard size g then Except.error "Invalid initial board state"
  else
    match countMoves g with
    | none => Except.error "Invalid initial board state"
    | some (x, o) =>
      let withPlayer : Except String Player :=
        match cp with
        | none => Except.ok (if x ≤ o then Player.X else Player.O)
        | some p =>
          if (p = Player.X ∧ o < x) ∨ (p = Player.O ∧ x < o) then
            Except.error "Provided current player is inconsistent with the board state"
          else Except.ok p
      match withPlayer with
      | Except.error m => Except.error m
      | Except.ok current =>
        let e0 : Engine :=
          { size := size
            board := g
            empty_cells := emptyCellsOf size g
            x_count := x
            o_count := o
            current_player := current
            winner := none }
        Except.ok { e0 with winner := checkW e0 }

/-- `TicTacToeAbstract.__init__`, parameterized over the subclass
`check_winner` hook.  Note the Python truthiness test
`if not initial_state:` — both `None` and the empty list `[]` take the
fresh-board branch. -/
def initEngine (size : Nat) (checkW : Engine → Option Player)
    (initial : Option (List (List String))) (cp : Option Player) :
    Except String Engine :=
  if size < 3 then Except.error "Board size must be at least 3x3"
  else
    match initial with
    | none => Except.ok (newEngine size cp)
    | some g =>
      if g.isEmpty then Except.ok (newEngine size cp)
      else initFromState size checkW g cp

/-- `TicTacToe4x4.__init__`: the concrete engine, `size = 4` with the 4x4
winner scan. -/
def init4 (initial : Option (List (List String))) (cp : Option Player) :
    Except String Engine :=
  initEngine 4 checkWinner4 initial cp

/-- Fold a list of `make_move` calls over a state. -/
def playFrom (e : Engine) (ms : List (Int × Int)) : Engine :=
  ms.foldl (fun s m => (makeMove4 s m.1 m.2).2) e

/-- A freshly constructed `TicTacToe4x4()` (no initial grid, default
starting player). -/
def engine4Start : Engine := newEngine 4 none

/-- Play a sequence of moves on a freshly constructed 4x4 engine. -/
def playFromEmpty (ms : List (Int × Int)) : Engine :=
  playFrom engine4Start ms

/-- Variant of the abstract `is_winning_move` with the count-based
short-circuit removed: it always runs the line checks (`absWinCore` is
exactly the post-guard body of the source function). -/
def absIsWinningMoveNG (e : Engine) (row col : Nat) : Bool :=
  absWinCore e row col

/-- Variant of `TicTacToe4x4.is_winning_move` with both count-based
short-circuits removed (the abstract pre-check and the
`player_count < self.size` guard); the remaining logic is untouched. -/
def isWinningMove4NG (e : Engine) (row col : Nat) : Bool :=
  if absIsWinningMoveNG e row col then true
  else extra4 e row col

/-- Variant of the abstract `check_winner` with the count-based
short-circuit removed (the winner cache is kept). -/
def absCheckWinnerNG (e : Engine) : Option Player :=
  if e.winner.isSome then e.winner
  else absScanCore e

/-- Variant of `TicTacToe4x4.check_winner` with the count-based
short-circuit removed. -/
def checkWinner4NG (e : Engine) : Option Player :=
  match absCheckWinnerNG e with
  | some p => some p
  | none => tail4 e

/-- Modelled from the claim's words (C10): row `i` is uniform and
non-empty. -/
def uniformRowAt (g : List (List String)) (i : Nat) : Bool :=
  getCell g i 0 != "" && (List.range 4).all fun j => getCell g i j == getCell g i 0

/-- Modelled from the claim's words (C10): column `i` is uniform and
non-empty. -/
def uniformColAt (g : List (List String)) (i : Nat) : Bool :=
  getCell g 0 i != "" && (List.range 4).all fun j => getCell g j i == getCell g 0 i

/-- Modelled from the claim's words (C10): the main diagonal is uniform
and non-empty. -/
def uniformMainDiag (g : List (List String)) : Bool :=
  getCell g 0 0 != "" && (List.range 4).all fun i => getCell g i i == getCell g 0 0

/-- Modelled from the claim's words (C10): the anti-diagonal is uniform
and non-empty. -/
def uniformAntiDiag (g : List (List String)) : Bool :=
  getCell g 0 3 != "" && (List.range 4).all fun i => getCell g i (3 - i) == getCell g 0 3

/-- Modelled from the claim's words (C10): the four corners are uniform
and non-empty. -/
def uniformCornersAt (g : List (List String)) : Bool :=
  getCell g 0 0 != "" && cornersL.all fun rc => getCell g rc.1 rc.2 == getCell g 0 0

/-- Modelled from the claim's words (C10): the 2x2 block with top-left
anchor `(i, j)` has all four cells equal and non-empty. -/
def uniformBoxAt (g : List (List String)) (i j : Nat) : Bool :=
  getCell g i j != "" && (getCell g i (j + 1) == getCell g i j)
    && (getCell g (i + 1) j == getCell g i j)
    && (getCell g (i + 1) (j + 1) == getCell g i j)

/-- Modelled from the claim's words (C10): the fixed deterministic scan
order — for each `i` from 0 to 3, row `i` then column `i`; then the main
diagonal; then the anti-diagonal; then the four corners; then the 2x2
blocks by row-major top-left anchor — returning the player of the first
uniform non-empty shape found, or `none`. -/
def claimScanOrder (g : List (List String)) : Option Player :=
  match (List.range 4).findSome? (fun i =>
    if uniformRowAt g i then strPlayer (getCell g i 0)
    else if uniformColAt g i then strPlayer (getCell g 0 i)
    else none) with
  | some p => some p
  | none =>
    if uniformMainDiag g then strPlayer (getCell g 0 0)
    else if uniformAntiDiag g then strPlayer (getCell g 0 3)
    else if uniformCornersAt g then strPlayer (getCell g 0 0)
    else
      match (List.range 3).findSome? (fun i =>
        (List.range 3).findSome? fun j =>
          if uniformBoxAt g i j then strPlayer (getCell g i j) else none) with
      | some p => some p
      | none => none

/-- A 4x4 board shape: four rows of four cells. -/
def dims4 (b : List (List String)) : Prop :=
  b.length = 4 ∧ ∀ row ∈ b, row.length = 4

/-- Every cell is `""`, `"X"` or `"O"`. -/
def cleanBoard (b : List (List String)) : Prop :=
  ∀ row ∈ b, ∀ cell ∈ row, cell = "" ∨ cell = "X" ∨ cell = "O"

/-- The number of cells of the board holding symbol `v`. -/
def countOf (v : String) (b : List (List String)) : Nat :=
  (b.map (fun row => row.count v)).sum

/-- The well-formedness invariant of a 4x4 engine state: correct shape and
symbols, counters that agree with the board, the `empty_cells` set in
exact sync with the board, the total-count equation and the alternation
relation between the counters and the player to move. -/
structure EngineInv (e : Engine) : Prop where
  size_eq : e.size = 4
  dims : dims4 e.board
  clean : cleanBoard e.board
  x_ok : e.x_count = countOf "X" e.board
  o_ok : e.o_count = countOf "O" e.board
  sync : ∀ p : Int × Int, p ∈ e.empty_cells ↔
    (0 ≤ p.1 ∧ p.1 < 4 ∧ 0 ≤ p.2 ∧ p.2 < 4 ∧ getCell e.board p.1.toNat p.2.toNat = "")
  card_eq : e.x_count + e.o_count + e.empty_cells.card = 16
  turn : (e.current_player = Player.X → e.x_count ≤ e.o_count ∧ e.o_count ≤ e.x_count + 1) ∧
    (e.current_player = Player.O → e.o_count ≤ e.x_count ∧ e.x_count ≤ e.o_count + 1)

/-- The reachable states of the 4x4 engine: any successful construction
(fresh or from a supplied grid), followed by any sequence of `make_move`
and `reset` calls. -/
inductive Reachable : Engine → Prop where
  | init {initial cp e} : init4 initial cp = Except.ok e → Reachable e
  | move {e} (row col : Int) : Reachable e → Reachable (makeMove4 e row col).2
  | reset {e} : Reachable e → Reachable (resetEngine e)

/-- The engine state at which the generic incremental check runs during the
ninth move of the play
X(0,3) O(0,1) X(1,2) O(1,3) X(2,1) O(3,2) X(3,0) O(2,0) X(0,0):
X's anti-diagonal is complete (X already won at move 7, but the engine does
not stop play), and X has just placed at (0,0). -/
def c6State : Engine :=
  movedState (playFromEmpty [(0, 3), (0, 1), (1, 2), (1, 3), (2, 1), (3, 2), (3, 0), (2, 0)]) 0 0

/-- The engine state at which the win check runs during the eighth move of
the play X(0,2) O(0,0) X(1,3) O(0,1) X(3,1) O(1,0) X(2,0) O(1,1): O has
just completed the 2x2 block anchored at (0,0). -/
def c9State : Engine :=
  movedState (playFromEmpty [(0, 2), (0, 0), (1, 3), (0, 1), (3, 1), (1, 0), (2, 0)]) 1 1

/-- The witness grid for the supplied-board scan-order claim: X's first row
and O's second row are both complete. -/
def c10Grid : List (List String) :=
  [["X", "X", "X", "X"], ["O", "O", "O", "O"], ["", "", "", ""], ["", "", "", ""]]

theorem len4_destruct {α : Type} (l : List α) (h : l.length = 4) :
    ∃ a b c d, l = [a, b, c, d] := by
  rcases l with _ | ⟨a, _ | ⟨b, _ | ⟨c, _ | ⟨d, _ | ⟨e, t⟩⟩⟩⟩⟩ <;>
    simp only [List.length_cons, List.length_nil] at h <;> first | omega | exact ⟨a, b, c, d, rfl⟩

theorem getD_set_self {α : Type} (l : List α) (n : Nat) (v d : α) (h : n < l.length) :
    (l.set n v).getD n d = v := by
  rw [List.getD_eq_getElem _ _ (by simpa using h)]
  simp

theorem getD_set_ne {α : Type} (l : List α) (m n : Nat) (v d : α) (h : m ≠ n) :
    (l.set m v).getD n d = l.getD n d := by
  induction l generalizing m n with
  | nil => simp
  | cons a t ih =>
    cases m with
    | zero => cases n with
      | zero => omega
      | succ k => simp [List.set]
    | succ m => cases n with
      | zero => simp [List.set]
      | succ k => simpa [List.set] using ih m k (by omega)

theorem count_ge_one (l : List String) (v : String) (j : Nat) (hj : j < l.length)
    (hv : l.getD j "" = v) : 1 ≤ l.count v := by
  rw [List.getD_eq_getElem _ _ hj] at hv
  exact List.count_pos_iff.mpr (hv ▸ List.getElem_mem hj)

theorem count_ge_two (l : List String) (v : String) (j k : Nat) (hjk : j < k)
    (hk : k < l.length) (hj : l.getD j "" = v) (hkv : l.getD k "" = v) :
    2 ≤ l.count v := by
  induction l generalizing j k with
  | nil => simp at hk
  | cons a t ih =>
    cases j with
    | zero =>
      cases k with
      | zero => omega
      | succ k =>
        have ha : a = v := by simpa using hj
        have h1 : 1 ≤ t.count v :=
          count_ge_one t v k (by simpa using hk) (by simpa using hkv)
        subst ha
        rw [List.count_cons]
        simp only [beq_self_eq_true, if_true]
        omega
    | succ j =>
      cases k with
      | zero => omega
      | succ k =>
        have h2 := ih j k (by omega) (by simpa using hk) (by simpa using hj)
          (by simpa using hkv)
        simp only [List.count_cons]
        omega

theorem count_all4 (l : List String) (v : String) (hl : l.length = 4)
    (h : ∀ j < 4, l.getD j "" = v) : l.count v = 4 := by
  obtain ⟨a, b, c, d, rfl⟩ := len4_destruct l hl
  have ha : a = v := by simpa using h 0 (by omega)
  have hb : b = v := by simpa using h 1 (by omega)
  have hc : c = v := by simpa using h 2 (by omega)
  have hd : d = v := by simpa using h 3 (by omega)
  subst ha hb hc hd
  simp [List.count_cons]

theorem count_set_other (l : List String) (c : Nat) (w v : String)
    (hold : l.getD c "" ≠ v) (hw : w ≠ v) : (l.set c w).count v = l.count v := by
  induction l generalizing c with
  | nil => simp
  | cons a t ih =>
    cases c with
    | zero =>
      have : a ≠ v := by simpa using hold
      simp [List.count_cons, this, hw]
    | succ n =>
      have := ih n (by simpa using hold)
      simp only [List.set, List.count_cons, this]

theorem count_set_new (l : List String) (c : Nat) (w : String) (hc : c < l.length)
    (hold : l.getD c "" ≠ w) : (l.set c w).count w = l.count w + 1 := by
  induction l generalizing c with
  | nil => simp at hc
  | cons a t ih =>
    cases c with
    | zero =>
      have : a ≠ w := by simpa using hold
      simp [List.count_cons, this]
    | succ n =>
      have := ih n (by simpa using hc) (by simpa using hold)
      simp only [List.set, List.count_cons, this]
      omega

theorem sum_range_count (l : List String) (v : String) :
    (∑ c ∈ Finset.range l.length, if l.getD c "" = v then 1 else 0) = l.count v := by
  induction l with
  | nil => simp
  | cons a t ih =>
    rw [List.length_cons, Finset.sum_range_succ']
    simp only [List.getD_cons_succ, List.getD_cons_zero, ih, List.count_cons]
    by_cases h : a = v <;> simp [h]

theorem row_count_split (l : List String)
    (h : ∀ cell ∈ l, cell = "" ∨ cell = "X" ∨ cell = "O") :
    l.count "" + l.count "X" + l.count "O" = l.length := by
  induction l with
  | nil => simp
  | cons a t ih =>
    have ht := ih fun c hc => h c (by simp [hc])
    rcases h a (by simp) with rfl | rfl | rfl <;> simp [List.count_cons] <;> omega

theorem pyRange_mem (a b x : Nat) : x ∈ pyRange a b ↔ a ≤ x ∧ x < a + (b - a) := by
  rw [pyRange, List.mem_range']
  constructor
  · rintro ⟨i, hi, rfl⟩
    omega
  · rintro ⟨h1, h2⟩
    exact ⟨x - a, by omega, by omega⟩

theorem all_range_iff (n : Nat) (f : Nat → String) (v : String) :
    (((List.range n).all fun i => f i == v) = true) ↔ ∀ i < n, f i = v := by
  simp [List.all_eq_true, List.mem_range]

theorem countP_range_iff (n : Nat) (f : Nat → String) (v : String) :
    (((List.range n).countP fun i => f i == v) = n) ↔ ∀ i < n, f i = v := by
  constructor
  · intro h i hi
    have := List.countP_eq_length.mp (h.trans (List.length_range n).symm)
    simpa using this i (List.mem_range.mpr hi)
  · intro h
    rw [List.countP_eq_length.mpr fun i hi => by
      simpa using h i (List.mem_range.mp hi)]
    exact List.length_range n

theorem allFrom1_iff (n : Nat) (f : Nat → String) (v : String) (h0 : f 0 = v) :
    (((pyRange 1 n).all fun j => f j == v) = true) ↔ ∀ j < n, f j = v := by
  simp only [List.all_eq_true, pyRange_mem, beq_iff_eq]
  constructor
  · intro h j hj
    rcases Nat.eq_zero_or_pos j with rfl | hjp
    · exact h0
    · exact h j ⟨hjp, by omega⟩
  · intro h j hj
    exact h j (by omega)

theorem findSome?_congr {α β : Type} (f g : α → Option β) (l : List α)
    (h : ∀ x ∈ l, f x = g x) : l.findSome? f = l.findSome? g := by
  induction l with
  | nil => rfl
  | cons a t ih =>
    rw [List.findSome?_cons, List.findSome?_cons, h a (by simp)]
    cases g a with
    | none => exact ih fun x hx => h x (by simp [hx])
    | some b => rfl

theorem playerValue_cases (p : Player) : p.value = "X" ∨ p.value = "O" := by
  cases p <;> simp [Player.value]

theorem playerValue_ne_empty (p : Player) : p.value ≠ "" := by
  cases p <;> simp [Player.value]

theorem countOf_eq_getD (b : List (List String)) (v : String) (h : b.length = 4) :
    countOf v b = (b.getD 0 []).count v + (b.getD 1 []).count v
      + (b.getD 2 []).count v + (b.getD 3 []).count v := by
  obtain ⟨q0, q1, q2, q3, rfl⟩ := len4_destruct b h
  simp only [countOf, List.map_cons, List.map_nil, List.sum_cons, List.sum_nil,
    List.getD_cons_zero, List.getD_cons_succ]
  omega

theorem row_of_dims4 (b : List (List String)) (hd : dims4 b) (r : Nat) (hr : r < 4) :
    (b.getD r []).length = 4 := by
  obtain ⟨hlen, hrows⟩ := hd
  have hrb : b.getD r [] ∈ b := by
    rw [List.getD_eq_getElem _ _ (by omega)]
    exact List.getElem_mem (by omega)
  exact hrows _ hrb

theorem clean_getCell (b : List (List String)) (hd : dims4 b) (hc : cleanBoard b)
    (r c : Nat) (hr : r < 4) (hcc : c < 4) :
    getCell b r c = "" ∨ getCell b r c = "X" ∨ getCell b r c = "O" := by
  obtain ⟨hlen, hrows⟩ := hd
  have hrb : b.getD r [] ∈ b := by
    rw [List.getD_eq_getElem _ _ (by omega)]
    exact List.getElem_mem (by omega)
  have hlr : c < (b.getD r []).length := by rw [hrows _ hrb]; omega
  have hcb : (b.getD r []).getD c "" ∈ b.getD r [] := by
    rw [List.getD_eq_getElem _ _ hlr]
    exact List.getElem_mem hlr
  exact hc _ hrb _ hcb

theorem countOf_ge_of_row (b : List (List String)) (v : String) (r : Nat)
    (hd : dims4 b) (hr : r < 4) (h : ∀ j < 4, getCell b r j = v) :
    4 ≤ countOf v b := by
  have hrow : (b.getD r []).count v = 4 :=
    count_all4 _ v (row_of_dims4 b hd r hr) fun j hj => h j hj
  rw [countOf_eq_getD b v hd.1]
  interval_cases r <;> omega

theorem countOf_ge_of_col (b : List (List String)) (v : String) (c : Nat)
    (hd : dims4 b) (hc : c < 4) (h : ∀ i < 4, getCell b i c = v) :
    4 ≤ countOf v b := by
  have h0 : 1 ≤ (b.getD 0 []).count v :=
    count_ge_one _ v c (by rw [row_of_dims4 b hd 0 (by omega)]; omega) (h 0 (by omega))
  have h1 : 1 ≤ (b.getD 1 []).count v :=
    count_ge_one _ v c (by rw [row_of_dims4 b hd 1 (by omega)]; omega) (h 1 (by omega))
  have h2 : 1 ≤ (b.getD 2 []).count v :=
    count_ge_one _ v c (by rw [row_of_dims4 b hd 2 (by omega)]; omega) (h 2 (by omega))
  have h3 : 1 ≤ (b.getD 3 []).count v :=
    count_ge_one _ v c (by rw [row_of_dims4 b hd 3 (by omega)]; omega) (h 3 (by omega))
  rw [countOf_eq_getD b v hd.1]
  omega

theorem countOf_ge_of_diag (b : List (List String)) (v : String)
    (hd : dims4 b) (h : ∀ i < 4, getCell b i i = v) : 4 ≤ countOf v b := by
  have h0 : 1 ≤ (b.getD 0 []).count v :=
    count_ge_one _ v 0 (by rw [row_of_dims4 b hd 0 (by omega)]; omega) (h 0 (by omega))
  have h1 : 1 ≤ (b.getD 1 []).count v :=
    count_ge_one _ v 1 (by rw [row_of_dims4 b hd 1 (by omega)]; omega) (h 1 (by omega))
  have h2 : 1 ≤ (b.getD 2 []).count v :=
    count_ge_one _ v 2 (by rw [row_of_dims4 b hd 2 (by omega)]; omega) (h 2 (by omega))
  have h3 : 1 ≤ (b.getD 3 []).count v :=
    count_ge_one _ v 3 (by rw [row_of_dims4 b hd 3 (by omega)]; omega) (h 3 (by omega))
  rw [countOf_eq_getD b v hd.1]
  omega

theorem countOf_ge_of_anti (b : List (List String)) (v : String)
    (hd : dims4 b) (h : ∀ i < 4, getCell b i (3 - i) = v) : 4 ≤ countOf v b := by
  have h0 : 1 ≤ (b.getD 0 []).count v :=
    count_ge_one _ v 3 (by rw [row_of_dims4 b hd 0 (by omega)]; omega) (h 0 (by omega))
  have h1 : 1 ≤ (b.getD 1 []).count v :=
    count_ge_one _ v 2 (by rw [row_of_dims4 b hd 1 (by omega)]; omega) (h 1 (by omega))
  have h2 : 1 ≤ (b.getD 2 []).count v :=
    count_ge_one _ v 1 (by rw [row_of_dims4 b hd 2 (by omega)]; omega) (h 2 (by omega))
  have h3 : 1 ≤ (b.getD 3 []).count v :=
    count_ge_one _ v 0 (by rw [row_of_dims4 b hd 3 (by omega)]; omega) (h 3 (by omega))
  rw [countOf_eq_getD b v hd.1]
  omega

theorem countOf_ge_of_corners (b : List (List String)) (v : String)
    (hd : dims4 b) (h : ∀ rc ∈ cornersL, getCell b rc.1 rc.2 = v) :
    4 ≤ countOf v b := by
  have h0 : 2 ≤ (b.getD 0 []).count v :=
    count_ge_two _ v 0 3 (by omega) (by rw [row_of_dims4 b hd 0 (by omega)]; omega)
      (h (0, 0) (by simp [cornersL])) (h (0, 3) (by simp [cornersL]))
  have h3 : 2 ≤ (b.getD 3 []).count v :=
    count_ge_two _ v 0 3 (by omega) (by rw [row_of_dims4 b hd 3 (by omega)]; omega)
      (h (3, 0) (by simp [cornersL])) (h (3, 3) (by simp [cornersL]))
  rw [countOf_eq_getD b v hd.1]
  omega

theorem countOf_ge_of_box (b : List (List String)) (v : String) (a c : Nat)
    (hd : dims4 b) (ha : a ≤ 2) (hc : c ≤ 2)
    (h1 : getCell b a c = v) (h2 : getCell b a (c + 1) = v)
    (h3 : getCell b (a + 1) c = v) (h4 : getCell b (a + 1) (c + 1) = v) :
    4 ≤ countOf v b := by
  have ka : 2 ≤ (b.getD a []).count v :=
    count_ge_two _ v c (c + 1) (by omega) (by rw [row_of_dims4 b hd a (by omega)]; omega) h1 h2
  have kb : 2 ≤ (b.getD (a + 1) []).count v :=
    count_ge_two _ v c (c + 1) (by omega)
      (by rw [row_of_dims4 b hd (a + 1) (by omega)]; omega) h3 h4
  rw [countOf_eq_getD b v hd.1]
  interval_cases a <;> norm_num at ka kb ⊢ <;> omega

theorem getCell_setCell_self (b : List (List String)) (r c : Nat) (v : String)
    (hr : r < b.length) (hc : c < (b.getD r []).length) :
    getCell (setCell b r c v) r c = v := by
  unfold getCell setCell
  rw [getD_set_self b r _ [] hr]
  exact getD_set_self _ c v "" hc

theorem getCell_setCell_ne (b : List (List String)) (r c r2 c2 : Nat) (v : String)
    (h : ¬ (r = r2 ∧ c = c2)) :
    getCell (setCell b r c v) r2 c2 = getCell b r2 c2 := by
  by_cases hr : r = r2
  · subst hr
    have hc : c ≠ c2 := fun hcc => h ⟨rfl, hcc⟩
    unfold getCell setCell
    by_cases hrb : r < b.length
    · rw [getD_set_self b r _ [] hrb]
      exact getD_set_ne _ c c2 v "" hc
    · rw [List.set_eq_of_length_le (by omega)]
  · unfold getCell setCell
    rw [getD_set_ne b r r2 _ [] hr]

theorem length_setCell (b : List (List String)) (r c : Nat) (v : String) :
    (setCell b r c v).length = b.length := by
  simp [setCell]

theorem absWinCore_iff (e : Engine) (row col : Nat) :
    absWinCore e row col = true ↔
      ((∀ j < e.size, getCell e.board row j = e.current_player.value)
        ∨ (∀ i < e.size, getCell e.board i col = e.current_player.value)
        ∨ ((row = col ∨ row + col = e.size - 1)
            ∧ ((∀ i < e.size, getCell e.board i i = e.current_player.value)
              ∨ (∀ i < e.size, getCell e.board i (e.size - 1 - i) = e.current_player.value)))) := by
  unfold absWinCore
  by_cases h1 : ((List.range e.size).all fun i => getCell e.board row i == e.current_player.value) = true
  · rw [if_pos h1]
    exact iff_of_true rfl
      (Or.inl ((all_range_iff e.size _ _).mp h1))
  · rw [if_neg h1]
    by_cases h2 : ((List.range e.size).countP fun i => getCell e.board i col == e.current_player.value) = e.size
    · rw [if_pos h2]
      exact iff_of_true rfl
        (Or.inr (Or.inl ((countP_range_iff e.size _ _).mp h2)))
    · rw [if_neg h2]
      by_cases h3 : (decide (row = col) || decide (row + col = e.size - 1)) = true
      · rw [if_pos h3]
        constructor
        · intro hb
          refine Or.inr (Or.inr ⟨by simpa using h3, ?_⟩)
          rcases Bool.or_eq_true _ _ |>.mp hb with hd | hd
          · exact Or.inl ((countP_range_iff e.size _ _).mp (by simpa using hd))
          · exact Or.inr ((countP_range_iff e.size _ _).mp (by simpa using hd))
        · rintro (hrow | hcol | ⟨hp, hdiag | hanti⟩)
          · exact absurd ((all_range_iff e.size _ _).mpr hrow) h1
          · exact absurd ((countP_range_iff e.size _ _).mpr hcol) h2
          · exact Bool.or_eq_true _ _ |>.mpr (Or.inl (by
              simpa using (countP_range_iff e.size _ _).mpr hdiag))
          · exact Bool.or_eq_true _ _ |>.mpr (Or.inr (by
              simpa using (countP_range_iff e.size _ _).mpr hanti))
      · rw [if_neg h3]
        refine iff_of_false (by simp) ?_
        rintro (hrow | hcol | ⟨hp, hrest⟩)
        · exact absurd ((all_range_iff e.size _ _).mpr hrow) h1
        · exact absurd ((countP_range_iff e.size _ _).mpr hcol) h2
        · exact h3 (by simpa using hp)

theorem finset_quad_card_one (w x y z : String) :
    ({w, x, y, z} : Finset String).card = 1 ↔ x = w ∧ y = w ∧ z = w := by
  constructor
  · intro h
    obtain ⟨u, hu⟩ := Finset.card_eq_one.mp h
    have hw : w = u := by
      have hm : w ∈ ({w, x, y, z} : Finset String) := by simp
      rw [hu] at hm
      simpa using hm
    have hx : x = u := by
      have hm : x ∈ ({w, x, y, z} : Finset String) := by simp
      rw [hu] at hm
      simpa using hm
    have hy : y = u := by
      have hm : y ∈ ({w, x, y, z} : Finset String) := by simp
      rw [hu] at hm
      simpa using hm
    have hz : z = u := by
      have hm : z ∈ ({w, x, y, z} : Finset String) := by simp
      rw [hu] at hm
      simpa using hm
    exact ⟨hx.trans hw.symm, hy.trans hw.symm, hz.trans hw.symm⟩
  · rintro ⟨h1, h2, h3⟩
    subst h1 h2 h3
    simp

theorem isBox2x2Filled_iff (b : List (List String)) (a c : Nat) :
    isBox2x2Filled b a c = true ↔
      getCell b a c ≠ "" ∧ getCell b a (c + 1) = getCell b a c ∧
      getCell b (a + 1) c = getCell b a c ∧ getCell b (a + 1) (c + 1) = getCell b a c := by
  unfold isBox2x2Filled
  rw [Bool.and_eq_true, beq_iff_eq, bne_iff_ne]
  rw [finset_quad_card_one]
  tauto

theorem isWinning2x2Move_iff (b : List (List String)) (row col : Nat) :
    isWinning2x2Move b row col = true ↔
      ∃ a c, a ≤ 2 ∧ c ≤ 2 ∧ a ≤ row ∧ row ≤ a + 1 ∧ c ≤ col ∧ col ≤ c + 1 ∧
        isBox2x2Filled b a c = true := by
  unfold isWinning2x2Move
  simp only [List.any_eq_true, pyRange_mem]
  constructor
  · rintro ⟨a, ⟨ha1, ha2⟩, c, ⟨hc1, hc2⟩, hbox⟩
    exact ⟨a, c, by omega, by omega, by omega, by omega, by omega, by omega, hbox⟩
  · rintro ⟨a, c, h1, h2, h3, h4, h5, h6, hbox⟩
    exact ⟨a, ⟨by omega, by omega⟩, c, ⟨by omega, by omega⟩, hbox⟩

theorem extra4_iff (e : Engine) (row col : Nat) :
    extra4 e row col = true ↔
      (((row, col) ∈ cornersL ∧
          ∀ rc ∈ cornersL, getCell e.board rc.1 rc.2 = e.current_player.value)
        ∨ isWinning2x2Move e.board row col = true) := by
  unfold extra4
  by_cases h : (cornersL.contains (row, col)
      && cornersL.all fun rc => getCell e.board rc.1 rc.2 == e.current_player.value) = true
  · rw [if_pos h]
    rw [Bool.and_eq_true] at h
    refine iff_of_true rfl (Or.inl ⟨by simpa using h.1, ?_⟩)
    have := List.all_eq_true.mp h.2
    intro rc hrc
    simpa using this rc hrc
  · rw [if_neg h]
    constructor
    · exact Or.inr
    · rintro (⟨hmem, hall⟩ | hbox)
      · exact absurd (Bool.and_eq_true _ _ |>.mpr
          ⟨by simpa using hmem, List.all_eq_true.mpr fun rc hrc => by simpa using hall rc hrc⟩) h
      · exact hbox

theorem foldl_countCellStep_none (l : List String) : l.foldl countCellStep none = none := by
  induction l with
  | nil => rfl
  | cons a t ih => simpa [countCellStep] using ih

theorem foldl_countCellStep_clean (l : List String) (x o : Nat)
    (h : ∀ cell ∈ l, cell = "" ∨ cell = "X" ∨ cell = "O") :
    l.foldl countCellStep (some (x, o)) = some (x + l.count "X", o + l.count "O") := by
  induction l generalizing x o with
  | nil => simp
  | cons a t ih =>
    have ht : ∀ cell ∈ t, cell = "" ∨ cell = "X" ∨ cell = "O" :=
      fun c hc => h c (by simp [hc])
    rcases h a (by simp) with rfl | rfl | rfl
    · rw [List.foldl_cons, show countCellStep (some (x, o)) "" = some (x, o) from by
        simp [countCellStep], ih _ _ ht]
      simp [List.count_cons]
    · rw [List.foldl_cons, show countCellStep (some (x, o)) "X" = some (x + 1, o) from by
        simp [countCellStep], ih _ _ ht]
      simp [List.count_cons]
      omega
    · rw [List.foldl_cons, show countCellStep (some (x, o)) "O" = some (x, o + 1) from by
        simp [countCellStep], ih _ _ ht]
      simp [List.count_cons]
      omega

theorem foldl_countCellStep_junk (l : List String) (x o : Nat)
    (h : ¬ ∀ cell ∈ l, cell = "" ∨ cell = "X" ∨ cell = "O") :
    l.foldl countCellStep (some (x, o)) = none := by
  induction l generalizing x o with
  | nil => simp at h
  | cons a t ih =>
    by_cases ha : a = "" ∨ a = "X" ∨ a = "O"
    · have ht : ¬ ∀ cell ∈ t, cell = "" ∨ cell = "X" ∨ cell = "O" := by
        intro hh
        exact h (by
          intro c hc
          rcases List.mem_cons.mp hc with rfl | hc2
          · exact ha
          · exact hh c hc2)
      rcases ha with rfl | rfl | rfl
      · rw [List.foldl_cons, show countCellStep (some (x, o)) "" = some (x, o) from by
          simp [countCellStep]]
        exact ih _ _ ht
      · rw [List.foldl_cons, show countCellStep (some (x, o)) "X" = some (x + 1, o) from by
          simp [countCellStep]]
        exact ih _ _ ht
      · rw [List.foldl_cons, show countCellStep (some (x, o)) "O" = some (x, o + 1) from by
          simp [countCellStep]]
        exact ih _ _ ht
    · rw [List.foldl_cons]
      have hstep : countCellStep (some (x, o)) a = none := by
        push_neg at ha
        simp [countCellStep, ha.1, ha.2.1, ha.2.2]
      rw [hstep]
      exact foldl_countCellStep_none t

theorem foldl_rows_none (t : List (List String)) :
    t.foldl (fun a r => r.foldl countCellStep a) none = none := by
  induction t with
  | nil => rfl
  | cons s ss ih =>
    rw [List.foldl_cons, foldl_countCellStep_none]
    exact ih

theorem foldl_rows_junk (t : List (List String)) (x o : Nat) (h : ¬ cleanBoard t) :
    t.foldl (fun a r => r.foldl countCellStep a) (some (x, o)) = none := by
  induction t generalizing x o with
  | nil => exact absurd (fun row hr => absurd hr (List.not_mem_nil row)) h
  | cons r ts ih =>
    by_cases hr : ∀ cell ∈ r, cell = "" ∨ cell = "X" ∨ cell = "O"
    · rw [List.foldl_cons, foldl_countCellStep_clean r x o hr]
      apply ih
      intro hclean
      refine h ?_
      intro row hrow
      rcases List.mem_cons.mp hrow with rfl | hm
      · exact hr
      · exact hclean row hm
    · rw [List.foldl_cons, foldl_countCellStep_junk r x o hr]
      exact foldl_rows_none ts

theorem countMoves_aux (b : List (List String)) (x o : Nat) (h : cleanBoard b) :
    b.foldl (fun a row => row.foldl countCellStep a) (some (x, o))
      = some (x + countOf "X" b, o + countOf "O" b) := by
  induction b generalizing x o with
  | nil => simp [countOf]
  | cons r t ih =>
    rw [List.foldl_cons, foldl_countCellStep_clean r x o (h r (by simp)),
      ih _ _ (fun row hr => h row (by simp [hr]))]
    simp [countOf]
    constructor <;> omega

theorem countMoves_clean (b : List (List String)) (h : cleanBoard b) :
    countMoves b = some (countOf "X" b, countOf "O" b) := by
  unfold countMoves
  simpa using countMoves_aux b 0 0 h

theorem countMoves_junk (b : List (List String)) (h : ¬ cleanBoard b) :
    countMoves b = none := by
  unfold countMoves
  exact foldl_rows_junk b 0 0 h

theorem countMoves_eq_some (b : List (List String)) (x o : Nat)
    (h : countMoves b = some (x, o)) :
    cleanBoard b ∧ x = countOf "X" b ∧ o = countOf "O" b := by
  by_cases hc : cleanBoard b
  · rw [countMoves_clean b hc] at h
    injection h with h
    injection h with h1 h2
    exact ⟨hc, h1.symm, h2.symm⟩
  · rw [countMoves_junk b hc] at h
    cases h

theorem coordCast_injective :
    Function.Injective (fun rc : Nat × Nat => ((rc.1 : Int), (rc.2 : Int))) := by
  rintro ⟨a, b⟩ ⟨c, d⟩ h
  simp only [Prod.mk.injEq, Int.natCast_inj] at h
  simp [h.1, h.2]

theorem mem_allCoords (n : Nat) (p : Int × Int) :
    p ∈ allCoords n ↔ 0 ≤ p.1 ∧ p.1 < n ∧ 0 ≤ p.2 ∧ p.2 < n := by
  unfold allCoords
  simp only [Finset.mem_image, Finset.mem_product, Finset.mem_range]
  constructor
  · rintro ⟨⟨a, b⟩, ⟨ha, hb⟩, rfl⟩
    simp only []
    omega
  · rintro ⟨h1, h2, h3, h4⟩
    refine ⟨(p.1.toNat, p.2.toNat), ⟨by omega, by omega⟩, ?_⟩
    have e1 : ((p.1.toNat : Int), (p.2.toNat : Int)) = (p.1, p.2) := by
      rw [Int.toNat_of_nonneg h1, Int.toNat_of_nonneg h3]
    simpa using e1

theorem mem_emptyCellsOf (n : Nat) (g : List (List String)) (p : Int × Int) :
    p ∈ emptyCellsOf n g ↔
      0 ≤ p.1 ∧ p.1 < n ∧ 0 ≤ p.2 ∧ p.2 < n ∧ getCell g p.1.toNat p.2.toNat = "" := by
  unfold emptyCellsOf
  simp only [Finset.mem_image, Finset.mem_filter, Finset.mem_product, Finset.mem_range]
  constructor
  · rintro ⟨⟨a, b⟩, ⟨⟨ha, hb⟩, hcell⟩, rfl⟩
    simp only [Int.toNat_natCast]
    refine ⟨by omega, by omega, by omega, by omega, hcell⟩
  · rintro ⟨h1, h2, h3, h4, h5⟩
    refine ⟨(p.1.toNat, p.2.toNat), ⟨⟨by omega, by omega⟩, h5⟩, ?_⟩
    have e1 : ((p.1.toNat : Int), (p.2.toNat : Int)) = (p.1, p.2) := by
      rw [Int.toNat_of_nonneg h1, Int.toNat_of_nonneg h3]
    simpa using e1

theorem card_emptyCellsOf (g : List (List String)) (hd : dims4 g) :
    (emptyCellsOf 4 g).card = countOf "" g := by
  unfold emptyCellsOf
  rw [Finset.card_image_of_injective _ coordCast_injective, Finset.card_filter,
    Finset.sum_product]
  have hrow : ∀ a ∈ Finset.range 4,
      (∑ b ∈ Finset.range 4, if getCell g a b = "" then 1 else 0)
        = (g.getD a []).count "" := by
    intro a ha
    have hl : (g.getD a []).length = 4 := row_of_dims4 g hd a (Finset.mem_range.mp ha)
    rw [show (Finset.range 4) = Finset.range (g.getD a []).length from by rw [hl]]
    exact sum_range_count (g.getD a []) ""
  rw [Finset.sum_congr rfl hrow, countOf_eq_getD g "" hd.1]
  rw [Finset.sum_range_succ, Finset.sum_range_succ, Finset.sum_range_succ,
    Finset.sum_range_one]

theorem card_allCoords4 : (allCoords 4).card = 16 := by decide

theorem getCell_blank (n r c : Nat) :
    getCell (List.replicate n (List.replicate n "")) r c = "" := by
  unfold getCell
  by_cases hr : r < n
  · rw [List.getD_eq_getElem (List.replicate n (List.replicate n "")) [] (by simpa using hr),
      List.getElem_replicate]
    by_cases hc : c < n
    · rw [List.getD_eq_getElem (List.replicate n "") "" (by simpa using hc),
        List.getElem_replicate]
    · exact List.getD_eq_default _ _ (by simpa using Nat.le_of_not_lt hc)
  · rw [List.getD_eq_default (List.replicate n (List.replicate n "")) []
      (by simpa using Nat.le_of_not_lt hr)]
    rfl

theorem countOf_blank (v : String) (hv : v ≠ "") :
    countOf v (List.replicate 4 (List.replicate 4 "")) = 0 := by
  have hrow : List.count v ["", "", "", ""] = 0 := by
    rw [List.count_eq_zero]
    intro hmem
    simp at hmem
    exact hv hmem
  simp [countOf, hrow]

theorem inv_newEngine (cp : Option Player) : EngineInv (newEngine 4 cp) := by
  constructor
  · rfl
  · constructor
    · simp [newEngine]
    · intro row hrow
      rw [List.eq_of_mem_replicate (show row ∈ List.replicate 4 (List.replicate 4 "") from hrow)]
      simp
  · intro row hrow cell hcell
    rw [List.eq_of_mem_replicate (show row ∈ List.replicate 4 (List.replicate 4 "") from hrow)]
      at hcell
    exact Or.inl (List.eq_of_mem_replicate hcell)
  · exact (countOf_blank "X" (by simp)).symm
  · exact (countOf_blank "O" (by simp)).symm
  · intro p
    rw [show (newEngine 4 cp).empty_cells = allCoords 4 from rfl, mem_allCoords,
      show (newEngine 4 cp).board = List.replicate 4 (List.replicate 4 "") from rfl]
    constructor
    · rintro ⟨h1, h2, h3, h4⟩
      exact ⟨h1, h2, h3, h4, getCell_blank 4 _ _⟩
    · rintro ⟨h1, h2, h3, h4, h5⟩
      exact ⟨h1, h2, h3, h4⟩
  · show 0 + 0 + (allCoords 4).card = 16
    rw [card_allCoords4]
  · constructor <;> intro _ <;> exact ⟨Nat.le.refl, Nat.zero_le _⟩

theorem inv_resetEngine (e : Engine) (h : EngineInv e) : EngineInv (resetEngine e) := by
  have hs := h.size_eq
  unfold resetEngine
  rw [hs]
  exact inv_newEngine (some Player.X)

theorem countOf_total16 (g : List (List String)) (hd : dims4 g) (hc : cleanBoard g) :
    countOf "" g + countOf "X" g + countOf "O" g = 16 := by
  have h0 := row_count_split (g.getD 0 []) fun c hcc => hc _ (by
    rw [List.getD_eq_getElem _ _ (by rw [hd.1]; omega)]
    exact List.getElem_mem (by rw [hd.1]; omega)) c hcc
  have h1 := row_count_split (g.getD 1 []) fun c hcc => hc _ (by
    rw [List.getD_eq_getElem _ _ (by rw [hd.1]; omega)]
    exact List.getElem_mem (by rw [hd.1]; omega)) c hcc
  have h2 := row_count_split (g.getD 2 []) fun c hcc => hc _ (by
    rw [List.getD_eq_getElem _ _ (by rw [hd.1]; omega)]
    exact List.getElem_mem (by rw [hd.1]; omega)) c hcc
  have h3 := row_count_split (g.getD 3 []) fun c hcc => hc _ (by
    rw [List.getD_eq_getElem _ _ (by rw [hd.1]; omega)]
    exact List.getElem_mem (by rw [hd.1]; omega)) c hcc
  rw [row_of_dims4 g hd 0 (by omega)] at h0
  rw [row_of_dims4 g hd 1 (by omega)] at h1
  rw [row_of_dims4 g hd 2 (by omega)] at h2
  rw [row_of_dims4 g hd 3 (by omega)] at h3
  rw [countOf_eq_getD g _ hd.1, countOf_eq_getD g _ hd.1, countOf_eq_getD g _ hd.1]
  omega

theorem isValidBoard_dest (size : Nat) (g : List (List String))
    (h : isValidBoard size g = true) :
    g.length = size ∧ (∀ row ∈ g, row.length = size) ∧
      ∃ x o, countMoves g = some (x, o) ∧ x ≠ 0 ∧ ((x : Int) - (o : Int)).natAbs ≤ 1 := by
  unfold isValidBoard at h
  by_cases hc : (decide (g.length ≠ size) || g.any fun row => decide (row.length ≠ size)) = true
  · rw [if_pos hc] at h
    cases h
  · rw [if_neg hc] at h
    simp only [Bool.or_eq_true, decide_eq_true_eq, List.any_eq_true, not_or, not_exists] at hc
    push_neg at hc
    obtain ⟨hlen, hrows⟩ := hc
    cases hcm : countMoves g with
    | none =>
      rw [hcm] at h
      cases h
    | some xo =>
      rw [hcm] at h
      obtain ⟨x, o⟩ := xo
      simp only [Bool.and_eq_true, decide_eq_true_eq, ne_eq] at h
      refine ⟨hlen, ?_, x, o, rfl, h.1, by simpa using h.2⟩
      intro row hrow
      have hthis := hrows row
      simp only [hrow] at hthis
      simpa using hthis

theorem getD_setCell_rows (b : List (List String)) (r c : Nat) (v : String) (i : Nat)
    (hi : i ≠ r) : (setCell b r c v).getD i [] = b.getD i [] :=
  getD_set_ne b r i _ [] fun hri => hi hri.symm

theorem getD_setCell_row (b : List (List String)) (r c : Nat) (v : String)
    (hr : r < b.length) : (setCell b r c v).getD r [] = (b.getD r []).set c v :=
  getD_set_self b r _ [] hr

theorem countOf_setCell_same (b : List (List String)) (r c : Nat) (v : String)
    (hd : dims4 b) (hr : r < 4) (hc : c < 4) (hold : getCell b r c = "") (hv : v ≠ "") :
    countOf v (setCell b r c v) = countOf v b + 1 := by
  have hlen : r < b.length := by rw [hd.1]; omega
  have hrowlen : c < (b.getD r []).length := by rw [row_of_dims4 b hd r hr]; omega
  have hsame := getD_setCell_row b r c v hlen
  have hcnt : ((b.getD r []).set c v).count v = (b.getD r []).count v + 1 :=
    count_set_new _ c v hrowlen (by
      intro hcc
      exact hv (hcc.symm.trans hold))
  have hdims2 : (setCell b r c v).length = 4 := by rw [length_setCell, hd.1]
  rw [countOf_eq_getD _ v hdims2, countOf_eq_getD b v hd.1]
  interval_cases r
  · rw [hsame, hcnt, getD_setCell_rows b 0 c v 1 (by omega),
      getD_setCell_rows b 0 c v 2 (by omega), getD_setCell_rows b 0 c v 3 (by omega)]
    omega
  · rw [hsame, hcnt, getD_setCell_rows b 1 c v 0 (by omega),
      getD_setCell_rows b 1 c v 2 (by omega), getD_setCell_rows b 1 c v 3 (by omega)]
    omega
  · rw [hsame, hcnt, getD_setCell_rows b 2 c v 0 (by omega),
      getD_setCell_rows b 2 c v 1 (by omega), getD_setCell_rows b 2 c v 3 (by omega)]
    omega
  · rw [hsame, hcnt, getD_setCell_rows b 3 c v 0 (by omega),
      getD_setCell_rows b 3 c v 1 (by omega), getD_setCell_rows b 3 c v 2 (by omega)]
    omega

theorem countOf_setCell_other (b : List (List String)) (r c : Nat) (w v : String)
    (hd : dims4 b) (hold : getCell b r c ≠ v) (hw : w ≠ v) :
    countOf v (setCell b r c w) = countOf v b := by
  have hcnt : ((b.getD r []).set c w).count v = (b.getD r []).count v :=
    count_set_other _ c w v hold hw
  have hdims2 : (setCell b r c w).length = 4 := by rw [length_setCell, hd.1]
  by_cases hlen : r < b.length
  · have hsame := getD_setCell_row b r c w hlen
    have hr4 : r < 4 := by rw [hd.1] at hlen; omega
    rw [countOf_eq_getD _ v hdims2, countOf_eq_getD b v hd.1]
    interval_cases r
    · rw [hsame, hcnt, getD_setCell_rows b 0 c w 1 (by omega),
        getD_setCell_rows b 0 c w 2 (by omega), getD_setCell_rows b 0 c w 3 (by omega)]
    · rw [hsame, hcnt, getD_setCell_rows b 1 c w 0 (by omega),
        getD_setCell_rows b 1 c w 2 (by omega), getD_setCell_rows b 1 c w 3 (by omega)]
    · rw [hsame, hcnt, getD_setCell_rows b 2 c w 0 (by omega),
        getD_setCell_rows b 2 c w 1 (by omega), getD_setCell_rows b 2 c w 3 (by omega)]
    · rw [hsame, hcnt, getD_setCell_rows b 3 c w 0 (by omega),
        getD_setCell_rows b 3 c w 1 (by omega), getD_setCell_rows b 3 c w 2 (by omega)]
  · unfold setCell
    rw [List.set_eq_of_length_le (by omega)]

theorem inv_move_core (e : Engine) (row col : Int) (h : EngineInv e)
    (hm : (row, col) ∈ e.empty_cells) (win : Option Player) :
    EngineInv
      { size := e.size
        board := setCell e.board row.toNat col.toNat e.current_player.value
        empty_cells := e.empty_cells.erase (row, col)
        x_count := if e.current_player = Player.X then e.x_count + 1 else e.x_count
        o_count := if e.current_player = Player.O then e.o_count + 1 else e.o_count
        current_player := e.current_player.flip
        winner := win } := by
  obtain ⟨hr0, hr4, hc0, hc4, hcell⟩ := (h.sync (row, col)).mp hm
  simp only [] at hr0 hr4 hc0 hc4 hcell
  have hr : row.toNat < 4 := by omega
  have hc : col.toNat < 4 := by omega
  have hblen : row.toNat < e.board.length := by rw [h.dims.1]; omega
  have hrowlen : col.toNat < (e.board.getD row.toNat []).length := by
    rw [row_of_dims4 e.board h.dims row.toNat hr]; omega
  constructor
  · exact h.size_eq
  · constructor
    · simp only [length_setCell]
      exact h.dims.1
    · intro r2 hr2
      rcases List.mem_or_eq_of_mem_set hr2 with hold | hnew
      · exact h.dims.2 r2 hold
      · rw [hnew]
        simp only [List.length_set]
        exact row_of_dims4 e.board h.dims row.toNat hr
  · intro r2 hr2 cell hcl
    rcases List.mem_or_eq_of_mem_set hr2 with hold | hnew
    · exact h.clean r2 hold cell hcl
    · rw [hnew] at hcl
      rcases List.mem_or_eq_of_mem_set hcl with holdc | hnewc
      · refine h.clean (e.board.getD row.toNat []) ?_ cell holdc
        rw [List.getD_eq_getElem _ _ hblen]
        exact List.getElem_mem hblen
      · rw [hnewc]
        rcases playerValue_cases e.current_player with hv | hv <;> rw [hv] <;> simp
  · dsimp only
    cases hcp : e.current_player with
    | X =>
      rw [if_pos rfl, show Player.X.value = "X" from rfl,
        countOf_setCell_same e.board row.toNat col.toNat "X" h.dims hr hc hcell (by decide),
        ← h.x_ok]
    | O =>
      rw [if_neg (by decide), show Player.O.value = "O" from rfl,
        countOf_setCell_other e.board row.toNat col.toNat "O" "X" h.dims
          (by rw [hcell]; decide) (by decide), ← h.x_ok]
  · dsimp only
    cases hcp : e.current_player with
    | X =>
      rw [if_neg (by decide), show Player.X.value = "X" from rfl,
        countOf_setCell_other e.board row.toNat col.toNat "X" "O" h.dims
          (by rw [hcell]; decide) (by decide), ← h.o_ok]
    | O =>
      rw [if_pos rfl, show Player.O.value = "O" from rfl,
        countOf_setCell_same e.board row.toNat col.toNat "O" h.dims hr hc hcell (by decide),
        ← h.o_ok]
  · intro p
    simp only [Finset.mem_erase]
    constructor
    · rintro ⟨hne, hp⟩
      obtain ⟨q1, q2, q3, q4, qcell⟩ := (h.sync p).mp hp
      refine ⟨q1, q2, q3, q4, ?_⟩
      rw [getCell_setCell_ne e.board row.toNat col.toNat p.1.toNat p.2.toNat _ ?_]
      · exact qcell
      · rintro ⟨hh1, hh2⟩
        refine hne (Prod.ext ?_ ?_) <;> simp only [] <;> omega
    · rintro ⟨q1, q2, q3, q4, qcell⟩
      have hpne : p ≠ (row, col) := by
        rintro rfl
        rw [getCell_setCell_self e.board row.toNat col.toNat _ hblen hrowlen] at qcell
        exact playerValue_ne_empty _ qcell
      refine ⟨hpne, (h.sync p).mpr ⟨q1, q2, q3, q4, ?_⟩⟩
      rw [← getCell_setCell_ne e.board row.toNat col.toNat p.1.toNat p.2.toNat
        e.current_player.value ?_]
      · exact qcell
      · rintro ⟨hh1, hh2⟩
        refine hpne (Prod.ext ?_ ?_) <;> simp only [] <;> omega
  · dsimp only
    have hcard := Finset.card_erase_of_mem hm
    have hpos : 0 < e.empty_cells.card := Finset.card_pos.mpr ⟨_, hm⟩
    have htot := h.card_eq
    cases e.current_player with
    | X =>
      rw [if_pos rfl, if_neg (by decide)]
      omega
    | O =>
      rw [if_neg (by decide), if_pos rfl]
      omega
  · dsimp only
    cases hcp : e.current_player with
    | X =>
      have ht := h.turn.1 hcp
      constructor
      · intro hflip
        exact absurd hflip (by decide)
      · intro _
        rw [if_pos rfl, if_neg (by decide)]
        exact ⟨by omega, by omega⟩
    | O =>
      have ht := h.turn.2 hcp
      constructor
      · intro _
        rw [if_pos rfl, if_neg (by decide)]
        exact ⟨by omega, by omega⟩
      · intro hflip
        exact absurd hflip (by decide)

theorem makeMoveWith_invalid (w : Engine → Nat → Nat → Bool) (e : Engine) (row col : Int)
    (hm : (row, col) ∉ e.empty_cells) : makeMoveWith w e row col = (false, e) := by
  unfold makeMoveWith
  rw [if_neg hm]

theorem makeMoveWith_valid (w : Engine → Nat → Nat → Bool) (e : Engine) (row col : Int)
    (hm : (row, col) ∈ e.empty_cells) :
    makeMoveWith w e row col = (true, makeMoveApply w e row col) := by
  unfold makeMoveWith
  rw [if_pos hm]

theorem makeMoveApply_eq (w : Engine → Nat → Nat → Bool) (e : Engine) (row col : Int) :
    makeMoveApply w e row col =
      { movedState e row col with
        current_player := e.current_player.flip
        winner :=
          if w (movedState e row col) row.toNat col.toNat then some e.current_player
          else e.winner } := by
  by_cases hw : w (movedState e row col) row.toNat col.toNat = true
  · simp only [makeMoveApply, hw, if_true]
    rfl
  · simp only [makeMoveApply, hw, if_false, Bool.false_eq_true]
    rfl

theorem inv_movedState_flip (e : Engine) (row col : Int) (h : EngineInv e)
    (hm : (row, col) ∈ e.empty_cells) (win : Option Player) :
    EngineInv
      { movedState e row col with
        current_player := e.current_player.flip
        winner := win } :=
  inv_move_core e row col h hm win

theorem inv_makeMove (w : Engine → Nat → Nat → Bool) (e : Engine) (row col : Int)
    (h : EngineInv e) : EngineInv (makeMoveWith w e row col).2 := by
  by_cases hm : (row, col) ∈ e.empty_cells
  · rw [makeMoveWith_valid w e row col hm, makeMoveApply_eq]
    exact inv_movedState_flip e row col h hm _
  · rw [makeMoveWith_invalid w e row col hm]
    exact h

theorem inv_fromState_record (g : List (List String)) (x o : Nat) (current : Player)
    (w : Option Player) (hd : dims4 g) (hclean : cleanBoard g)
    (hx : x = countOf "X" g) (ho : o = countOf "O" g)
    (hturnX : current = Player.X → x ≤ o ∧ o ≤ x + 1)
    (hturnO : current = Player.O → o ≤ x ∧ x ≤ o + 1) :
    EngineInv
      { size := 4, board := g, empty_cells := emptyCellsOf 4 g, x_count := x, o_count := o,
        current_player := current, winner := w } := by
  constructor
  · rfl
  · exact hd
  · exact hclean
  · exact hx
  · exact ho
  · intro p
    dsimp only
    rw [mem_emptyCellsOf]
    norm_num
  · dsimp only
    rw [card_emptyCellsOf g hd]
    have := countOf_total16 g hd hclean
    omega
  · exact ⟨hturnX, hturnO⟩

theorem inv_initFromState (checkW : Engine → Option Player) (g : List (List String))
    (cp : Option Player) (e : Engine)
    (h : initFromState 4 checkW g cp = Except.ok e) : EngineInv e := by
  unfold initFromState at h
  by_cases hv : isValidBoard 4 g = true
  case neg =>
    rw [if_pos (by simpa using hv)] at h
    cases h
  case pos =>
    rw [if_neg (by simp [hv])] at h
    obtain ⟨hlen, hrows, x0, o0, hcm0, hx0, hbal0⟩ := isValidBoard_dest 4 g hv
    rw [hcm0] at h
    obtain ⟨hclean, hxc, hoc⟩ := countMoves_eq_some g x0 o0 hcm0
    have hd : dims4 g := ⟨hlen, hrows⟩
    cases cp with
    | none =>
      dsimp only at h
      injection h with hh
      subst hh
      by_cases hxo : x0 ≤ o0
      · rw [if_pos hxo]
        refine inv_fromState_record g x0 o0 _ _ hd hclean hxc hoc ?_ ?_
        · intro _
          exact ⟨hxo, by omega⟩
        · intro hX
          exact absurd hX (by decide)
      · rw [if_neg hxo]
        refine inv_fromState_record g x0 o0 _ _ hd hclean hxc hoc ?_ ?_
        · intro hX
          exact absurd hX (by decide)
        · intro _
          exact ⟨by omega, by omega⟩
    | some p =>
      dsimp only at h
      by_cases hbad : (p = Player.X ∧ o0 < x0) ∨ (p = Player.O ∧ x0 < o0)
      · rw [if_pos hbad] at h
        cases h
      · rw [if_neg hbad] at h
        dsimp only at h
        injection h with hh
        subst hh
        push_neg at hbad
        refine inv_fromState_record g x0 o0 _ _ hd hclean hxc hoc ?_ ?_
        · intro hX
          have := hbad.1 hX
          exact ⟨by omega, by omega⟩
        · intro hO
          have := hbad.2 hO
          exact ⟨by omega, by omega⟩

theorem inv_initEngine (size : Nat) (checkW : Engine → Option Player)
    (initial : Option (List (List String))) (cp : Option Player) (e : Engine)
    (hsize : size = 4) (h : initEngine size checkW initial cp = Except.ok e) :
    EngineInv e := by
  subst hsize
  unfold initEngine at h
  rw [if_neg (by omega)] at h
  cases initial with
  | none =>
    injection h with hh
    subst hh
    exact inv_newEngine cp
  | some g =>
    dsimp only at h
    by_cases hemp : g.isEmpty = true
    · rw [if_pos hemp] at h
      injection h with hh
      subst hh
      exact inv_newEngine cp
    · rw [if_neg hemp] at h
      exact inv_initFromState checkW g cp e h

theorem inv_reachable (e : Engine) (h : Reachable e) : EngineInv e := by
  induction h with
  | init hinit => exact inv_initEngine 4 checkWinner4 _ _ _ rfl hinit
  | move row col _ ih => exact inv_makeMove isWinningMove4 _ row col ih
  | reset _ ih => exact inv_resetEngine _ ih

theorem getCell_oob (b : List (List String)) (hd : dims4 b) (r c : Nat)
    (h : 4 ≤ r ∨ 4 ≤ c) : getCell b r c = "" := by
  rcases h with h | h
  · unfold getCell
    rw [List.getD_eq_default b [] (show b.length ≤ r from by rw [hd.1]; omega)]
    rfl
  · by_cases hr : r < 4
    · unfold getCell
      rw [List.getD_eq_default (b.getD r []) ""
        (show (b.getD r []).length ≤ c from by rw [row_of_dims4 b hd r hr]; omega)]
    · unfold getCell
      rw [List.getD_eq_default b [] (show b.length ≤ r from by rw [hd.1]; omega)]
      rfl

theorem countOf_player_lt (e : Engine) (h : EngineInv e)
    (hx : e.x_count < 4) (ho : e.o_count < 4) :
    countOf e.current_player.value e.board < 4 := by
  cases hcp : e.current_player with
  | X =>
    rw [show Player.X.value = "X" from rfl, ← h.x_ok]
    exact hx
  | O =>
    rw [show Player.O.value = "O" from rfl, ← h.o_ok]
    exact ho

theorem absWinCore_false (e : Engine) (row col : Nat) (hsz : e.size = 4)
    (hd : dims4 e.board) (hcnt : countOf e.current_player.value e.board < 4) :
    absWinCore e row col = false := by
  by_contra hh
  rw [Bool.not_eq_false, absWinCore_iff, hsz] at hh
  rcases hh with hrow | hcol | ⟨hp, hdiag | hanti⟩
  · by_cases hr : row < 4
    · exact absurd (countOf_ge_of_row e.board _ row hd hr hrow) (by omega)
    · have := hrow 0 (by omega)
      rw [getCell_oob e.board hd row 0 (by omega)] at this
      exact playerValue_ne_empty _ this.symm
  · by_cases hc : col < 4
    · exact absurd (countOf_ge_of_col e.board _ col hd hc hcol) (by omega)
    · have := hcol 0 (by omega)
      rw [getCell_oob e.board hd 0 col (by omega)] at this
      exact playerValue_ne_empty _ this.symm
  · exact absurd (countOf_ge_of_diag e.board _ hd hdiag) (by omega)
  · exact absurd (countOf_ge_of_anti e.board _ hd (by
      intro i hi
      have := hanti i hi
      rwa [show 4 - 1 - i = 3 - i from by omega] at this)) (by omega)

theorem extra4_false (e : Engine) (row col : Nat) (hd : dims4 e.board)
    (hcnt : countOf e.current_player.value e.board < 4)
    (hcell : getCell e.board row col = e.current_player.value) :
    extra4 e row col = false := by
  by_contra hh
  rw [Bool.not_eq_false, extra4_iff] at hh
  rcases hh with ⟨hmem, hall⟩ | hbox
  · exact absurd (countOf_ge_of_corners e.board _ hd hall) (by omega)
  · rw [isWinning2x2Move_iff] at hbox
    obtain ⟨a, c, ha, hc, h1, h2, h3, h4, hbox⟩ := hbox
    rw [isBox2x2Filled_iff] at hbox
    obtain ⟨hne, e1, e2, e3⟩ := hbox
    have hval : getCell e.board a c = e.current_player.value := by
      have hra : row = a ∨ row = a + 1 := by omega
      have hcc : col = c ∨ col = c + 1 := by omega
      rcases hra with rfl | hra2 <;> rcases hcc with rfl | hcc2
      · exact hcell
      · rw [hcc2] at hcell
        exact e1.symm.trans hcell
      · rw [hra2] at hcell
        exact e2.symm.trans hcell
      · rw [hra2, hcc2] at hcell
        exact e3.symm.trans hcell
    exact absurd (countOf_ge_of_box e.board _ a c hd ha hc hval (e1.trans hval)
      (e2.trans hval) (e3.trans hval)) (by omega)

theorem uniform_line_contra (b : List (List String))
    (hx : countOf "X" b < 4) (ho : countOf "O" b < 4) (v : String) (hv : v ≠ "")
    (hvc : v = "" ∨ v = "X" ∨ v = "O") (hge : 4 ≤ countOf v b) : False := by
  rcases hvc with rfl | rfl | rfl
  · exact hv rfl
  · omega
  · omega

theorem absScanCore_none (e : Engine) (hsz : e.size = 4) (hd : dims4 e.board)
    (hclean : cleanBoard e.board)
    (hx : countOf "X" e.board < 4) (ho : countOf "O" e.board < 4) :
    absScanCore e = none := by
  unfold absScanCore
  rw [hsz]
  have hrow : ∀ i, i < 4 → ¬((getCell e.board i 0 != ""
      && (pyRange 1 4).all fun j => getCell e.board i j == getCell e.board i 0) = true) := by
    intro i hi hcond
    rw [Bool.and_eq_true, bne_iff_ne] at hcond
    have hall := (allFrom1_iff 4 (fun j => getCell e.board i j) _ rfl).mp hcond.2
    exact uniform_line_contra e.board hx ho _ hcond.1
      (clean_getCell e.board hd hclean i 0 hi (by omega))
      (countOf_ge_of_row e.board _ i hd hi hall)
  have hcol : ∀ i, i < 4 → ¬((getCell e.board 0 i != ""
      && (pyRange 1 4).all fun j => getCell e.board j i == getCell e.board 0 i) = true) := by
    intro i hi hcond
    rw [Bool.and_eq_true, bne_iff_ne] at hcond
    have hall := (allFrom1_iff 4 (fun j => getCell e.board j i) _ rfl).mp hcond.2
    exact uniform_line_contra e.board hx ho _ hcond.1
      (clean_getCell e.board hd hclean 0 i (by omega) hi)
      (countOf_ge_of_col e.board _ i hd hi hall)
  have hmd : ¬((getCell e.board 0 0 != ""
      && (pyRange 1 4).all fun i => getCell e.board i i == getCell e.board 0 0) = true) := by
    intro hcond
    rw [Bool.and_eq_true, bne_iff_ne] at hcond
    have hall := (allFrom1_iff 4 (fun i => getCell e.board i i) _ rfl).mp hcond.2
    exact uniform_line_contra e.board hx ho _ hcond.1
      (clean_getCell e.board hd hclean 0 0 (by omega) (by omega))
      (countOf_ge_of_diag e.board _ hd hall)
  have had : ¬((getCell e.board 0 (4 - 1) != ""
      && (pyRange 1 4).all
        fun i => getCell e.board i (4 - 1 - i) == getCell e.board 0 (4 - 1)) = true) := by
    intro hcond
    rw [Bool.and_eq_true, bne_iff_ne] at hcond
    have hall := (allFrom1_iff 4 (fun i => getCell e.board i (4 - 1 - i)) _ rfl).mp hcond.2
    refine uniform_line_contra e.board hx ho _ hcond.1
      (clean_getCell e.board hd hclean 0 3 (by omega) (by omega))
      (countOf_ge_of_anti e.board _ hd ?_)
    intro i hi
    rw [show (3 : Nat) - i = 4 - 1 - i from by omega]
    exact hall i hi
  rw [show ((List.range 4).findSome? fun i =>
      if (getCell e.board i 0 != ""
          && (pyRange 1 4).all fun j => getCell e.board i j == getCell e.board i 0) = true then
        strPlayer (getCell e.board i 0)
      else if (getCell e.board 0 i != ""
          && (pyRange 1 4).all fun j => getCell e.board j i == getCell e.board 0 i) = true then
        strPlayer (getCell e.board 0 i)
      else none) = none from by
    rw [List.findSome?_eq_none_iff]
    intro i hi
    rw [if_neg (hrow i (List.mem_range.mp hi)), if_neg (hcol i (List.mem_range.mp hi))]]
  rw [if_neg hmd, if_neg had]

theorem isWinningMove4_false_of_counts (e : Engine) (row col : Nat)
    (hx : e.x_count < e.size) (ho : e.o_count < e.size) :
    isWinningMove4 e row col = false := by
  have habs : absIsWinningMove e row col = none := by
    unfold absIsWinningMove
    rw [if_pos ⟨ho, hx⟩]
  have hpc : (if e.current_player = Player.X then e.x_count else e.o_count) < e.size := by
    cases e.current_player with
    | X => rwa [if_pos rfl]
    | O => rwa [if_neg (by decide)]
  unfold isWinningMove4
  rw [habs, show optTruthy none = false from rfl, if_neg (by simp), if_pos hpc]

theorem checkWinner4_eq_NG (e : Engine) (h : EngineInv e) :
    checkWinner4 e = checkWinner4NG e := by
  have heq : absCheckWinner e = absCheckWinnerNG e := by
    unfold absCheckWinner absCheckWinnerNG
    by_cases hw : e.winner.isSome = true
    · rw [if_pos hw, if_pos hw]
    · rw [if_neg hw, if_neg hw]
      by_cases hg : e.o_count < e.size ∧ e.x_count < e.size
      · have hg2 := hg
        rw [h.size_eq] at hg2
        rw [if_pos hg, absScanCore_none e h.size_eq h.dims h.clean
          (by rw [← h.x_ok]; omega) (by rw [← h.o_ok]; omega)]
      · rw [if_neg hg]
  unfold checkWinner4 checkWinner4NG
  rw [heq]

theorem isWinningMove4_eq_NG (e : Engine) (row col : Nat) (h : EngineInv e)
    (hcell : getCell e.board row col = e.current_player.value) :
    isWinningMove4 e row col = isWinningMove4NG e row col := by
  unfold isWinningMove4 isWinningMove4NG absIsWinningMoveNG
  by_cases hg : e.o_count < e.size ∧ e.x_count < e.size
  · have hg2 := hg
    rw [h.size_eq] at hg2
    have hcnt : countOf e.current_player.value e.board < 4 :=
      countOf_player_lt e h (by omega) (by omega)
    have hcore : absWinCore e row col = false :=
      absWinCore_false e row col h.size_eq h.dims hcnt
    have hex : extra4 e row col = false := extra4_false e row col h.dims hcnt hcell
    have habs : absIsWinningMove e row col = none := by
      unfold absIsWinningMove
      rw [if_pos hg]
    have hpc : (if e.current_player = Player.X then e.x_count else e.o_count) < e.size := by
      cases e.current_player with
      | X =>
        rw [if_pos rfl]
        exact hg.2
      | O =>
        rw [if_neg (by decide)]
        exact hg.1
    rw [habs, show optTruthy none = false from rfl, if_neg (by simp), if_pos hpc,
      hcore, if_neg (by simp), hex]
  · have habs : absIsWinningMove e row col = some (absWinCore e row col) := by
      unfold absIsWinningMove
      rw [if_neg hg]
    rw [habs, show optTruthy (some (absWinCore e row col)) = absWinCore e row col from rfl]
    by_cases hcore : absWinCore e row col = true
    · rw [hcore, if_pos rfl, if_pos rfl]
    · rw [Bool.not_eq_true] at hcore
      rw [hcore, if_neg (show ¬(false = true) from by simp),
        if_neg (show ¬(false = true) from by simp)]
      by_cases hpc : (if e.current_player = Player.X then e.x_count else e.o_count) < e.size
      · rw [if_pos hpc]
        have hcnt : countOf e.current_player.value e.board < 4 := by
          cases hcp : e.current_player with
          | X =>
            rw [hcp, if_pos rfl] at hpc
            rw [show Player.X.value = "X" from rfl, ← h.x_ok]
            rw [h.size_eq] at hpc
            exact hpc
          | O =>
            rw [hcp, if_neg (by decide)] at hpc
            rw [show Player.O.value = "O" from rfl, ← h.o_ok]
            rw [h.size_eq] at hpc
            exact hpc
        rw [extra4_false e row col h.dims hcnt hcell]
      · rw [if_neg hpc]

theorem rowcond_eq (b : List (List String)) (i : Nat) :
    (getCell b i 0 != "" && (pyRange 1 4).all fun j => getCell b i j == getCell b i 0)
      = uniformRowAt b i := by
  unfold uniformRowAt
  congr 1
  rw [Bool.eq_iff_iff, allFrom1_iff 4 (fun j => getCell b i j) (getCell b i 0) rfl,
    all_range_iff]

theorem colcond_eq (b : List (List String)) (i : Nat) :
    (getCell b 0 i != "" && (pyRange 1 4).all fun j => getCell b j i == getCell b 0 i)
      = uniformColAt b i := by
  unfold uniformColAt
  congr 1
  rw [Bool.eq_iff_iff, allFrom1_iff 4 (fun j => getCell b j i) (getCell b 0 i) rfl,
    all_range_iff]

theorem mdcond_eq (b : List (List String)) :
    (getCell b 0 0 != "" && (pyRange 1 4).all fun i => getCell b i i == getCell b 0 0)
      = uniformMainDiag b := by
  unfold uniformMainDiag
  congr 1
  rw [Bool.eq_iff_iff, allFrom1_iff 4 (fun i => getCell b i i) (getCell b 0 0) rfl,
    all_range_iff]

theorem adcond_eq (b : List (List String)) :
    (getCell b 0 (4 - 1) != ""
        && (pyRange 1 4).all fun i => getCell b i (4 - 1 - i) == getCell b 0 (4 - 1))
      = uniformAntiDiag b := by
  unfold uniformAntiDiag
  congr 1
  rw [Bool.eq_iff_iff,
    allFrom1_iff 4 (fun i => getCell b i (4 - 1 - i)) (getCell b 0 (4 - 1)) rfl,
    all_range_iff]

theorem boxcond_eq (b : List (List String)) (i j : Nat) :
    (getCell b i j != "" && isBox2x2Filled b i j) = uniformBoxAt b i j := by
  rw [Bool.eq_iff_iff, Bool.and_eq_true, bne_iff_ne, isBox2x2Filled_iff]
  unfold uniformBoxAt
  simp only [Bool.and_eq_true, bne_iff_ne, beq_iff_eq]
  tauto

theorem find2x2Winner_eq_claim (b : List (List String)) :
    find2x2Winner b = (List.range 3).findSome? fun i =>
      (List.range 3).findSome? fun j =>
        if uniformBoxAt b i j = true then strPlayer (getCell b i j) else none := by
  unfold find2x2Winner
  apply findSome?_congr
  intro i hi
  apply findSome?_congr
  intro j hj
  rw [boxcond_eq]

theorem checkWinner4NG_eq_claimScan (e : Engine) (hd : dims4 e.board)
    (hclean : cleanBoard e.board) (hsz : e.size = 4) (hw : e.winner = none) :
    checkWinner4NG e = claimScanOrder e.board := by
  unfold checkWinner4NG absCheckWinnerNG
  rw [hw, show (none : Option Player).isSome = false from rfl,
    if_neg (show ¬(false = true) from by simp)]
  unfold absScanCore
  rw [hsz]
  unfold claimScanOrder
  rw [show ((List.range 4).findSome? fun i =>
      if (getCell e.board i 0 != ""
          && (pyRange 1 4).all fun j => getCell e.board i j == getCell e.board i 0) = true then
        strPlayer (getCell e.board i 0)
      else if (getCell e.board 0 i != ""
          && (pyRange 1 4).all fun j => getCell e.board j i == getCell e.board 0 i) = true then
        strPlayer (getCell e.board 0 i)
      else none)
    = ((List.range 4).findSome? fun i =>
      if uniformRowAt e.board i = true then strPlayer (getCell e.board i 0)
      else if uniformColAt e.board i = true then strPlayer (getCell e.board 0 i)
      else none) from findSome?_congr _ _ _ fun i hi => by rw [rowcond_eq, colcond_eq]]
  cases hscan : (List.range 4).findSome? (fun i =>
      if uniformRowAt e.board i = true then strPlayer (getCell e.board i 0)
      else if uniformColAt e.board i = true then strPlayer (getCell e.board 0 i)
      else none) with
  | some p => rfl
  | none =>
    rw [mdcond_eq, adcond_eq]
    by_cases hmd : uniformMainDiag e.board = true
    · rw [if_pos hmd, if_pos hmd]
      have hnem : getCell e.board 0 0 ≠ "" := by
        unfold uniformMainDiag at hmd
        rw [Bool.and_eq_true, bne_iff_ne] at hmd
        exact hmd.1
      rcases clean_getCell e.board hd hclean 0 0 (by omega) (by omega) with h0 | h0 | h0
      · exact absurd h0 hnem
      · rw [h0]
        rfl
      · rw [h0]
        rfl
    · rw [if_neg hmd, if_neg hmd]
      by_cases had : uniformAntiDiag e.board = true
      · rw [if_pos had, if_pos had]
        have hnem : getCell e.board 0 3 ≠ "" := by
          unfold uniformAntiDiag at had
          rw [Bool.and_eq_true, bne_iff_ne] at had
          exact had.1
        rcases clean_getCell e.board hd hclean 0 3 (by omega) (by omega) with h0 | h0 | h0
        · exact absurd h0 hnem
        · rw [show getCell e.board 0 (4 - 1) = "X" from h0]
          rfl
        · rw [show getCell e.board 0 (4 - 1) = "O" from h0]
          rfl
      · rw [if_neg had, if_neg had]
        show (if uniformCornersAt e.board = true then strPlayer (getCell e.board 0 0)
          else find2x2Winner e.board) = _
        by_cases hcc : uniformCornersAt e.board = true
        · rw [if_pos hcc, if_pos hcc]
        · rw [if_neg hcc, if_neg hcc, find2x2Winner_eq_claim]
          cases hbox : (List.range 3).findSome? (fun i =>
              (List.range 3).findSome? fun j =>
                if uniformBoxAt e.board i j = true then strPlayer (getCell e.board i j)
                else none) with
          | some p => rfl
          | none => rfl

theorem inv_set_winner (e : Engine) (w : Option Player) (h : EngineInv e) :
    EngineInv { e with winner := w } :=
  ⟨h.size_eq, h.dims, h.clean, h.x_ok, h.o_ok, h.sync, h.card_eq, h.turn⟩

theorem initFromState_spec (checkW : Engine → Option Player) (g : List (List String))
    (cp : Option Player) (e : Engine)
    (h : initFromState 4 checkW g cp = Except.ok e) :
    e.board = g ∧ e.size = 4 ∧ e.winner = checkW { e with winner := none } := by
  unfold initFromState at h
  by_cases hv : isValidBoard 4 g = true
  case neg =>
    rw [if_pos (by simpa using hv)] at h
    cases h
  case pos =>
    rw [if_neg (by simp [hv])] at h
    obtain ⟨hlen, hrows, x0, o0, hcm0, hx0, hbal0⟩ := isValidBoard_dest 4 g hv
    rw [hcm0] at h
    cases cp with
    | none =>
      dsimp only at h
      injection h with hh
      subst hh
      exact ⟨rfl, rfl, rfl⟩
    | some p =>
      dsimp only at h
      by_cases hbad : (p = Player.X ∧ o0 < x0) ∨ (p = Player.O ∧ x0 < o0)
      · rw [if_pos hbad] at h
        cases h
      · rw [if_neg hbad] at h
        dsimp only at h
        injection h with hh
        subst hh
        exact ⟨rfl, rfl, rfl⟩

theorem initFromState_ok_of_valid (checkW : Engine → Option Player)
    (g : List (List String)) (hv : isValidBoard 4 g = true) :
    ∃ e, initFromState 4 checkW g none = Except.ok e := by
  obtain ⟨hlen, hrows, x, o, hcm, _, _⟩ := isValidBoard_dest 4 g hv
  unfold initFromState
  rw [if_neg (by simp [hv]), hcm]
  exact ⟨_, rfl⟩

theorem claimScanOrder_nil : claimScanOrder [] = none := by decide

/-- C1 counterexample: in the play X(0,0) O(1,0) X(0,1) O(1,1) X(0,2)
O(1,2) X(0,3), X completes row 0 and `winner` becomes `Some X`; the
subsequent `make_move` O(1,3) completes row 1 for O and `make_move`
overwrites `winner` with `Some O`, so a state with `winner = Some p` does
not keep `winner = Some p` across a later `make_move`, contradicting the
claim as stated. -/
theorem c1_counterexample :
    (playFromEmpty [(0, 0), (1, 0), (0, 1), (1, 1), (0, 2), (1, 2), (0, 3)]).winner
        = some Player.X
    ∧ (makeMove4 (playFromEmpty [(0, 0), (1, 0), (0, 1), (1, 1), (0, 2), (1, 2), (0, 3)])
        1 3).2.winner = some Player.O := by
  exact ⟨by decide, by decide⟩

/-- C1 (amended): once `winner` is `Some p`, a later `make_move` either
leaves it `Some p` or — when that move is itself detected as a winning
move, which the engine does not prevent after a game is over — overwrites
it with `Some mover`; `make_move` never resets `winner` to `None`, and
`reset` clears it.  This holds for every win-check hook. -/
theorem c1_winner_update (w : Engine → Nat → Nat → Bool) (e : Engine) (row col : Int)
    (p : Player) (h : e.winner = some p) :
    ((makeMoveWith w e row col).2.winner = some p
      ∨ (makeMoveWith w e row col).2.winner = some e.current_player)
    ∧ (resetEngine e).winner = none := by
  constructor
  · by_cases hm : (row, col) ∈ e.empty_cells
    · rw [makeMoveWith_valid w e row col hm, makeMoveApply_eq]
      dsimp only
      by_cases hw : w (movedState e row col) row.toNat col.toNat = true
      · rw [if_pos hw]
        exact Or.inr rfl
      · rw [if_neg hw]
        exact Or.inl h
    · rw [makeMoveWith_invalid w e row col hm]
      exact Or.inl h
  · rfl

/-- C1 witness: the amended theorem applied to the double-win play. -/
theorem c1_witness :
    ((makeMoveWith isWinningMove4
          (playFromEmpty [(0, 0), (1, 0), (0, 1), (1, 1), (0, 2), (1, 2), (0, 3)]) 1 3).2.winner
        = some Player.X
      ∨ (makeMoveWith isWinningMove4
          (playFromEmpty [(0, 0), (1, 0), (0, 1), (1, 1), (0, 2), (1, 2), (0, 3)]) 1 3).2.winner
        = some (playFromEmpty
            [(0, 0), (1, 0), (0, 1), (1, 1), (0, 2), (1, 2), (0, 3)]).current_player)
    ∧ (resetEngine
        (playFromEmpty [(0, 0), (1, 0), (0, 1), (1, 1), (0, 2), (1, 2), (0, 3)])).winner
      = none :=
  c1_winner_update isWinningMove4
    (playFromEmpty [(0, 0), (1, 0), (0, 1), (1, 1), (0, 2), (1, 2), (0, 3)]) 1 3
    Player.X (by decide)

theorem makeMove4_counts_mono (e : Engine) (row col : Int) :
    e.x_count ≤ (makeMove4 e row col).2.x_count
    ∧ e.o_count ≤ (makeMove4 e row col).2.o_count
    ∧ (makeMove4 e row col).2.size = e.size := by
  by_cases hm : (row, col) ∈ e.empty_cells
  · rw [show makeMove4 e row col = makeMoveWith isWinningMove4 e row col from rfl,
      makeMoveWith_valid _ e row col hm, makeMoveApply_eq]
    dsimp only [movedState]
    refine ⟨?_, ?_, rfl⟩ <;> split_ifs <;> omega
  · rw [show makeMove4 e row col = makeMoveWith isWinningMove4 e row col from rfl,
      makeMoveWith_invalid _ e row col hm]
    exact ⟨le_refl _, le_refl _, rfl⟩

theorem playFrom_counts_mono (ms : List (Int × Int)) (e : Engine) :
    e.x_count ≤ (playFrom e ms).x_count
    ∧ e.o_count ≤ (playFrom e ms).o_count
    ∧ (playFrom e ms).size = e.size := by
  induction ms generalizing e with
  | nil => exact ⟨le_refl _, le_refl _, rfl⟩
  | cons m t ih =>
    have h1 := makeMove4_counts_mono e m.1 m.2
    have h2 := ih (makeMove4 e m.1 m.2).2
    rw [show playFrom e (m :: t) = playFrom (makeMove4 e m.1 m.2).2 t from rfl]
    exact ⟨le_trans h1.1 h2.1, le_trans h1.2.1 h2.2.1, h2.2.2.trans h1.2.2⟩

theorem makeMoveApply_winner (w : Engine → Nat → Nat → Bool) (e : Engine) (row col : Int) :
    (makeMoveApply w e row col).winner =
      if w (movedState e row col) row.toNat col.toNat then some e.current_player
      else e.winner := by
  rw [makeMoveApply_eq]

theorem makeMoveApply_x_count (w : Engine → Nat → Nat → Bool) (e : Engine) (row col : Int) :
    (makeMoveApply w e row col).x_count = (movedState e row col).x_count := by
  rw [makeMoveApply_eq]

theorem makeMoveApply_o_count (w : Engine → Nat → Nat → Bool) (e : Engine) (row col : Int) :
    (makeMoveApply w e row col).o_count = (movedState e row col).o_count := by
  rw [makeMoveApply_eq]

theorem winner_none_of_low_counts_aux (ms : List (Int × Int)) (e : Engine)
    (hw : e.winner = none) (hsz : e.size = 4)
    (hx : (playFrom e ms).x_count < 4) (ho : (playFrom e ms).o_count < 4) :
    (playFrom e ms).winner = none := by
  induction ms generalizing e with
  | nil => exact hw
  | cons m t ih =>
    rw [show playFrom e (m :: t) = playFrom (makeMove4 e m.1 m.2).2 t from rfl] at hx ho ⊢
    have hmono := playFrom_counts_mono t (makeMove4 e m.1 m.2).2
    have hstep := makeMove4_counts_mono e m.1 m.2
    refine ih (makeMove4 e m.1 m.2).2 ?_ (hstep.2.2.trans hsz) hx ho
    by_cases hm : (m.1, m.2) ∈ e.empty_cells
    · rw [show makeMove4 e m.1 m.2 = makeMoveWith isWinningMove4 e m.1 m.2 from rfl,
        makeMoveWith_valid _ e m.1 m.2 hm] at hx ho hmono ⊢
      dsimp only at hx ho hmono ⊢
      rw [makeMoveApply_winner]
      rw [isWinningMove4_false_of_counts (movedState e m.1 m.2) m.1.toNat m.2.toNat ?_ ?_]
      · rw [if_neg (show ¬(false = true) from by simp)]
        exact hw
      · rw [show (movedState e m.1 m.2).size = e.size from rfl, hsz]
        rw [makeMoveApply_x_count] at hmono
        omega
      · rw [show (movedState e m.1 m.2).size = e.size from rfl, hsz]
        rw [makeMoveApply_o_count] at hmono
        omega
    · rw [show makeMove4 e m.1 m.2 = makeMoveWith isWinningMove4 e m.1 m.2 from rfl,
        makeMoveWith_invalid _ e m.1 m.2 hm]
      exact hw

/-- C2 counterexample: in the play X(0,0) O(1,0) X(0,1) O(1,1) X(0,2)
O(1,2) X(0,3), the 7th move is made while O's move count is 3 < size = 4
(both counts are 3 before the move, and O still has 3 after), yet the move
is reported as winning and `winner` becomes `Some X`.  So a win can occur
before *each* player has placed `size` marks, contradicting the claim as
stated: only the mover needs `size` marks. -/
theorem c2_counterexample :
    (playFromEmpty [(0, 0), (1, 0), (0, 1), (1, 1), (0, 2), (1, 2)]).x_count = 3
    ∧ (playFromEmpty [(0, 0), (1, 0), (0, 1), (1, 1), (0, 2), (1, 2)]).o_count = 3
    ∧ (playFromEmpty [(0, 0), (1, 0), (0, 1), (1, 1), (0, 2), (1, 2)]).winner = none
    ∧ (playFromEmpty [(0, 0), (1, 0), (0, 1), (1, 1), (0, 2), (1, 2), (0, 3)]).o_count = 3
    ∧ (playFromEmpty [(0, 0), (1, 0), (0, 1), (1, 1), (0, 2), (1, 2), (0, 3)]).winner
        = some Player.X := by
  exact ⟨by decide, by decide, by decide, by decide, by decide⟩

/-- C2 (amended): no winning move can be detected before the *moving*
player has placed `size` marks.  For every play from a fresh 4x4 engine in
which both players' final counts are still below 4 — equivalently, every
move so far was made by a player with fewer than `size` marks after it —
no move was reported as winning and `winner` is still `None`.  (The
original claim's condition, "some player's count below `size`", fails:
the mover can reach `size` marks while the opponent has `size - 1`.) -/
theorem c2_no_win_before_size_moves (ms : List (Int × Int))
    (hx : (playFromEmpty ms).x_count < 4) (ho : (playFromEmpty ms).o_count < 4) :
    (playFromEmpty ms).winner = none :=
  winner_none_of_low_counts_aux ms engine4Start rfl rfl hx ho

/-- C2 witness: a one-move play. -/
theorem c2_witness : (playFromEmpty [((0 : Int), (0 : Int))]).winner = none :=
  c2_no_win_before_size_moves [((0 : Int), (0 : Int))] (by decide) (by decide)

/-- C3: on every reachable engine state, `make_move` with an out-of-range
coordinate pair (any integers outside `[0,4) × [0,4)`) or an occupied cell
returns `false` and leaves the state — every field — exactly unchanged.
The embedding is a total function, mirroring that the Python method raises
no exception on such inputs: the validity test is just set membership. -/
theorem c3_invalid_move_noop (e : Engine) (row col : Int) (h : Reachable e)
    (hbad : ¬(0 ≤ row ∧ row < 4 ∧ 0 ≤ col ∧ col < 4)
      ∨ getCell e.board row.toNat col.toNat ≠ "") :
    makeMove4 e row col = (false, e) := by
  have hinv := inv_reachable e h
  apply makeMoveWith_invalid
  intro hm
  obtain ⟨h1, h2, h3, h4, h5⟩ := (hinv.sync (row, col)).mp hm
  rcases hbad with hb | hb
  · exact hb ⟨h1, h2, h3, h4⟩
  · exact hb h5

/-- C3 witness: a negative coordinate on a fresh engine. -/
theorem c3_witness : makeMove4 (newEngine 4 none) (-1) 0 = (false, newEngine 4 none) :=
  c3_invalid_move_noop (newEngine 4 none) (-1) 0
    (Reachable.init (show init4 none none = Except.ok (newEngine 4 none) from rfl))
    (Or.inl (by decide))

/-- C4: on every reachable engine state, `make_move` on an in-range empty
cell returns `true`, places the pre-call current player's mark there,
increments exactly that player's count, shrinks the set of valid moves by
exactly one, and flips `current_player` unconditionally (the flip happens
whether or not the move was winning). -/
theorem c4_valid_move (e : Engine) (row col : Nat) (h : Reachable e)
    (hr : row < 4) (hc : col < 4) (hcell : getCell e.board row col = "") :
    (makeMove4 e (row : Int) (col : Int)).1 = true
    ∧ getCell (makeMove4 e (row : Int) (col : Int)).2.board row col = e.current_player.value
    ∧ (e.current_player = Player.X →
        (makeMove4 e (row : Int) (col : Int)).2.x_count = e.x_count + 1
        ∧ (makeMove4 e (row : Int) (col : Int)).2.o_count = e.o_count)
    ∧ (e.current_player = Player.O →
        (makeMove4 e (row : Int) (col : Int)).2.o_count = e.o_count + 1
        ∧ (makeMove4 e (row : Int) (col : Int)).2.x_count = e.x_count)
    ∧ (makeMove4 e (row : Int) (col : Int)).2.empty_cells.card + 1 = e.empty_cells.card
    ∧ (makeMove4 e (row : Int) (col : Int)).2.current_player = e.current_player.flip := by
  have hinv := inv_reachable e h
  have hm : ((row : Int), (col : Int)) ∈ e.empty_cells := by
    rw [hinv.sync ((row : Int), (col : Int))]
    simp only [Int.toNat_natCast]
    exact ⟨by omega, by omega, by omega, by omega, hcell⟩
  have hpos : 0 < e.empty_cells.card := Finset.card_pos.mpr ⟨_, hm⟩
  have hcard := Finset.card_erase_of_mem hm
  rw [show makeMove4 e (row : Int) (col : Int)
    = makeMoveWith isWinningMove4 e (row : Int) (col : Int) from rfl,
    makeMoveWith_valid _ e (row : Int) (col : Int) hm]
  dsimp only
  rw [makeMoveApply_eq]
  refine ⟨rfl, ?_, ?_, ?_, ?_, rfl⟩
  · dsimp only [movedState]
    simp only [Int.toNat_natCast]
    exact getCell_setCell_self e.board row col _ (by rw [hinv.dims.1]; omega)
      (by rw [row_of_dims4 e.board hinv.dims row hr]; omega)
  · intro hcp
    dsimp only [movedState]
    rw [if_pos hcp, if_neg (by rw [hcp]; decide)]
    exact ⟨rfl, rfl⟩
  · intro hcp
    dsimp only [movedState]
    rw [if_pos hcp, if_neg (by rw [hcp]; decide)]
    exact ⟨rfl, rfl⟩
  · dsimp only [movedState]
    omega

/-- C4 witness: the first move of a game at (0, 0). -/
theorem c4_witness :
    (makeMove4 (newEngine 4 none) ((0 : Nat) : Int) ((0 : Nat) : Int)).1 = true
    ∧ getCell (makeMove4 (newEngine 4 none) ((0 : Nat) : Int) ((0 : Nat) : Int)).2.board 0 0
        = (newEngine 4 none).current_player.value
    ∧ ((newEngine 4 none).current_player = Player.X →
        (makeMove4 (newEngine 4 none) ((0 : Nat) : Int) ((0 : Nat) : Int)).2.x_count
            = (newEngine 4 none).x_count + 1
        ∧ (makeMove4 (newEngine 4 none) ((0 : Nat) : Int) ((0 : Nat) : Int)).2.o_count
            = (newEngine 4 none).o_count)
    ∧ ((newEngine 4 none).current_player = Player.O →
        (makeMove4 (newEngine 4 none) ((0 : Nat) : Int) ((0 : Nat) : Int)).2.o_count
            = (newEngine 4 none).o_count + 1
        ∧ (makeMove4 (newEngine 4 none) ((0 : Nat) : Int) ((0 : Nat) : Int)).2.x_count
            = (newEngine 4 none).x_count)
    ∧ (makeMove4 (newEngine 4 none) ((0 : Nat) : Int) ((0 : Nat) : Int)).2.empty_cells.card + 1
        = (newEngine 4 none).empty_cells.card
    ∧ (makeMove4 (newEngine 4 none) ((0 : Nat) : Int) ((0 : Nat) : Int)).2.current_player
        = (newEngine 4 none).current_player.flip :=
  c4_valid_move (newEngine 4 none) 0 0
    (Reachable.init (show init4 none none = Except.ok (newEngine 4 none) from rfl))
    (by omega) (by omega) (by decide)

/-- C5: every reachable engine state keeps `empty_cells` in exact sync
with the board — an in-range cell is in the set iff its board value is
empty — and satisfies `x_count + o_count + |empty_cells| = size²`. -/
theorem c5_state_invariants (e : Engine) (h : Reachable e) :
    (∀ row col : Nat, row < 4 → col < 4 →
      (((row : Int), (col : Int)) ∈ e.empty_cells ↔ getCell e.board row col = ""))
    ∧ e.x_count + e.o_count + e.empty_cells.card = e.size ^ 2 := by
  have hinv := inv_reachable e h
  constructor
  · intro row col hr hc
    rw [hinv.sync ((row : Int), (col : Int))]
    simp only [Int.toNat_natCast]
    constructor
    · rintro ⟨_, _, _, _, h5⟩
      exact h5
    · intro h5
      exact ⟨by omega, by omega, by omega, by omega, h5⟩
  · rw [hinv.size_eq]
    have := hinv.card_eq
    norm_num
    omega

/-- C5 witness: the fresh engine, instantiated at cell (0, 0). -/
theorem c5_witness :
    (((0 : Nat) : Int), ((0 : Nat) : Int)) ∈ (newEngine 4 none).empty_cells
      ↔ getCell (newEngine 4 none).board 0 0 = "" := by
  have h := c5_state_invariants (newEngine 4 none)
    (Reachable.init (show init4 none none = Except.ok (newEngine 4 none) from rfl))
  exact h.1 0 0 (by omega) (by omega)

/-- C6 counterexample: at `c6State` — the state inside `make_move` right
after X placed at (0,0), with X's anti-diagonal complete — the generic
incremental check returns true, although (0,0) is not on a full row or
column, the main diagonal is not full, and `0 + 0 ≠ size - 1` so by the
claim the anti-diagonal should not be consulted.  The code consults *both*
diagonals whenever `row == col or row + col == size - 1`. -/
theorem c6_counterexample :
    absIsWinningMove c6State 0 0 = some true
    ∧ ¬((∀ j < 4, getCell c6State.board 0 j = c6State.current_player.value)
      ∨ (∀ i < 4, getCell c6State.board i 0 = c6State.current_player.value)
      ∨ ((0 : Nat) = 0 ∧ ∀ i < 4, getCell c6State.board i i = c6State.current_player.value)
      ∨ ((0 + 0 : Nat) = 4 - 1
          ∧ ∀ i < 4, getCell c6State.board i (4 - 1 - i) = c6State.current_player.value)) := by
  exact ⟨by decide, by decide⟩

/-- C6 (amended): assuming the move-count pre-check passed, the generic
incremental check returns true iff row `row` is entirely the mover's
marks, or column `col` is, or — whenever `row = col` OR
`row + col = size - 1` — EITHER full diagonal is entirely the mover's
marks.  (The code guards the two diagonal checks with a single disjunctive
test and then accepts either full diagonal, rather than consulting the
main diagonal only when `row = col` and the anti-diagonal only when
`row + col = size - 1`.) -/
theorem c6_generic_check (e : Engine) (row col : Nat)
    (hguard : ¬(e.o_count < e.size ∧ e.x_count < e.size)) :
    absIsWinningMove e row col = some true ↔
      ((∀ j < e.size, getCell e.board row j = e.current_player.value)
        ∨ (∀ i < e.size, getCell e.board i col = e.current_player.value)
        ∨ ((row = col ∨ row + col = e.size - 1)
            ∧ ((∀ i < e.size, getCell e.board i i = e.current_player.value)
              ∨ (∀ i < e.size, getCell e.board i (e.size - 1 - i) = e.current_player.value)))) := by
  unfold absIsWinningMove
  rw [if_neg hguard]
  exact (by simp : (some (absWinCore e row col) = some true) ↔ absWinCore e row col = true).trans
    (absWinCore_iff e row col)

/-- C6 witness: the amended characterization applied at `c6State`, (0,0). -/
theorem c6_witness :
    absIsWinningMove c6State 0 0 = some true ↔
      ((∀ j < c6State.size, getCell c6State.board 0 j = c6State.current_player.value)
        ∨ (∀ i < c6State.size, getCell c6State.board i 0 = c6State.current_player.value)
        ∨ (((0 : Nat) = 0 ∨ (0 + 0 : Nat) = c6State.size - 1)
            ∧ ((∀ i < c6State.size, getCell c6State.board i i = c6State.current_player.value)
              ∨ (∀ i < c6State.size,
                  getCell c6State.board i (c6State.size - 1 - i)
                    = c6State.current_player.value)))) :=
  c6_generic_check c6State 0 0 (by decide)

/-- C7: on every reachable 4x4 engine state, the incremental check (at the
just-placed cell, i.e. a cell holding the mover's mark — the only way
`make_move` ever invokes it) and the exhaustive check return exactly the
same answers as the variants of themselves with the count-based
short-circuits removed: the guards never change the result. -/
theorem c7_guard_equiv (e : Engine) (h : Reachable e) :
    (∀ row col : Nat, getCell e.board row col = e.current_player.value →
      isWinningMove4 e row col = isWinningMove4NG e row col)
    ∧ checkWinner4 e = checkWinner4NG e := by
  have hinv := inv_reachable e h
  exact ⟨fun row col hcell => isWinningMove4_eq_NG e row col hinv hcell,
    checkWinner4_eq_NG e hinv⟩

/-- C7 witness: the state after X(0,0) O(1,1), evaluated at (0,0) (an X
cell, X to move). -/
theorem c7_witness :
    isWinningMove4 (playFromEmpty [(0, 0), (1, 1)]) 0 0
        = isWinningMove4NG (playFromEmpty [(0, 0), (1, 1)]) 0 0
    ∧ checkWinner4 (playFromEmpty [(0, 0), (1, 1)])
        = checkWinner4NG (playFromEmpty [(0, 0), (1, 1)]) := by
  have h := c7_guard_equiv (playFromEmpty [(0, 0), (1, 1)])
    (Reachable.move 1 1 (Reachable.move 0 0
      (Reachable.init (show init4 none none = Except.ok (newEngine 4 none) from rfl))))
  exact ⟨h.1 0 0 (by decide), h.2⟩

theorem isValidBoard_iff (size : Nat) (g : List (List String)) :
    isValidBoard size g = true ↔
      g.length = size ∧ (∀ row ∈ g, row.length = size)
      ∧ ∃ x o, countMoves g = some (x, o) ∧ x ≠ 0
          ∧ ((x : Int) - (o : Int)).natAbs ≤ 1 := by
  constructor
  · intro h
    obtain ⟨h1, h2, x, o, hcm, hx, hb⟩ := isValidBoard_dest size g h
    exact ⟨h1, h2, x, o, hcm, hx, hb⟩
  · rintro ⟨h1, h2, x, o, hcm, hx, hb⟩
    unfold isValidBoard
    rw [if_neg (by
      simp only [Bool.or_eq_true, decide_eq_true_eq, List.any_eq_true, not_or]
      push_neg
      exact ⟨h1, fun row hr => by simp [h2 row hr]⟩), hcm]
    simp only [Bool.and_eq_true, decide_eq_true_eq, ne_eq]
    exact ⟨hx, by simpa using hb⟩

theorem initFromState_ok_iff (size : Nat) (checkW : Engine → Option Player)
    (g : List (List String)) (cp : Option Player) :
    (∃ e, initFromState size checkW g cp = Except.ok e) ↔
      isValidBoard size g = true
      ∧ ¬(∃ x o, countMoves g = some (x, o)
          ∧ ((cp = some Player.X ∧ o < x) ∨ (cp = some Player.O ∧ x < o))) := by
  unfold initFromState
  by_cases hv : isValidBoard size g = true
  case neg =>
    rw [if_pos (by simpa using hv)]
    constructor
    · rintro ⟨e, he⟩
      cases he
    · rintro ⟨h1, _⟩
      exact absurd h1 hv
  case pos =>
    rw [if_neg (by simp [hv])]
    obtain ⟨_, _, x0, o0, hcm0, _, _⟩ := isValidBoard_dest size g hv
    rw [hcm0]
    cases cp with
    | none =>
      dsimp only
      constructor
      · rintro -
        refine ⟨hv, ?_⟩
        rintro ⟨x, o, _, hbad | hbad⟩
        · cases hbad.1
        · cases hbad.1
      · rintro -
        exact ⟨_, rfl⟩
    | some p =>
      dsimp only
      by_cases hbad : (p = Player.X ∧ o0 < x0) ∨ (p = Player.O ∧ x0 < o0)
      · rw [if_pos hbad]
        constructor
        · rintro ⟨e, he⟩
          cases he
        · rintro ⟨-, hno⟩
          refine absurd ?_ hno
          refine ⟨x0, o0, rfl, ?_⟩
          rcases hbad with ⟨rfl, hb⟩ | ⟨rfl, hb⟩
          · exact Or.inl ⟨rfl, hb⟩
          · exact Or.inr ⟨rfl, hb⟩
      · rw [if_neg hbad]
        dsimp only
        constructor
        · rintro -
          refine ⟨hv, ?_⟩
          rintro ⟨x, o, hcm, hb⟩
          injection hcm with hcm
          injection hcm with hcm1 hcm2
          subst hcm1 hcm2
          refine hbad ?_
          rcases hb with ⟨hp, hb⟩ | ⟨hp, hb⟩
          · injection hp with hp
            exact Or.inl ⟨hp, hb⟩
          · injection hp with hp
            exact Or.inr ⟨hp, hb⟩
        · rintro -
          exact ⟨_, rfl⟩

/-- C8 counterexample: the claim says construction fails whenever a
supplied grid has dimensions other than size×size, but supplying the empty
list `[]` (dimensions 0×0 ≠ 4×4) succeeds: Python's
`if not initial_state:` treats the empty list like `None` and builds a
fresh empty board. -/
theorem c8_counterexample :
    (List.length ([] : List (List String)) ≠ 4)
    ∧ init4 (some ([] : List (List String))) none = Except.ok (newEngine 4 none) := by
  exact ⟨by decide, rfl⟩

/-- C8 (amended): construction fails, producing no engine, exactly when
`size < 3`; or a supplied *non-empty* grid has wrong dimensions, an
illegal cell symbol (the cell count comes back `None`), zero X moves, or
`|xCount - oCount| > 1`; or a supplied starting player is inconsistent
with the derived counts.  A supplied *empty* grid (`[]`, falsy in Python)
is treated exactly like no grid at all: construction succeeds with a fresh
empty board.  Every other input yields a fully constructed engine. -/
theorem c8_construction_iff (size : Nat) (checkW : Engine → Option Player)
    (initial : Option (List (List String))) (cp : Option Player) :
    (∃ e, initEngine size checkW initial cp = Except.ok e) ↔
      ¬(size < 3
        ∨ ∃ g, initial = some g ∧ g ≠ []
          ∧ (g.length ≠ size ∨ (∃ row ∈ g, row.length ≠ size)
            ∨ countMoves g = none
            ∨ (∃ x o, countMoves g = some (x, o)
                ∧ (x = 0 ∨ 1 < ((x : Int) - (o : Int)).natAbs
                  ∨ (cp = some Player.X ∧ o < x) ∨ (cp = some Player.O ∧ x < o))))) := by
  unfold initEngine
  by_cases hs : size < 3
  · rw [if_pos hs]
    refine iff_of_false ?_ (by tauto)
    rintro ⟨e, he⟩
    cases he
  · rw [if_neg hs]
    cases initial with
    | none =>
      refine iff_of_true ⟨_, rfl⟩ ?_
      rintro (h | ⟨g, hg, _⟩)
      · exact hs h
      · cases hg
    | some g =>
      dsimp only
      by_cases hemp : g.isEmpty = true
      · obtain rfl := List.isEmpty_iff.mp hemp
        rw [if_pos hemp]
        refine iff_of_true ⟨_, rfl⟩ ?_
        rintro (h | ⟨g2, hg2, hne, _⟩)
        · exact hs h
        · injection hg2 with hg2
          exact hne hg2.symm
      · rw [if_neg hemp]
        have hgne : g ≠ [] := by
          intro hh
          rw [hh] at hemp
          exact hemp rfl
        rw [initFromState_ok_iff size checkW g cp, isValidBoard_iff]
        constructor
        · rintro ⟨⟨h1, h2, x, o, hcm, hx, hb⟩, hcons⟩
          rintro (h | ⟨g2, hg2, -, hbad⟩)
          · exact hs h
          · injection hg2 with hg2
            subst hg2
            rcases hbad with hbad | hbad | hbad | ⟨x2, o2, hcm2, hbad⟩
            · exact hbad h1
            · obtain ⟨row, hrow, hbad⟩ := hbad
              exact hbad (h2 row hrow)
            · rw [hcm] at hbad
              cases hbad
            · rw [hcm] at hcm2
              injection hcm2 with hcm2
              injection hcm2 with hcm21 hcm22
              subst hcm21 hcm22
              rcases hbad with hbad | hbad | hbad | hbad
              · exact hx hbad
              · omega
              · exact hcons ⟨x, o, hcm, Or.inl hbad⟩
              · exact hcons ⟨x, o, hcm, Or.inr hbad⟩
        · intro hno
          push_neg at hno
          obtain ⟨-, hno⟩ := hno
          obtain ⟨hlen, hrows, hcmne, hgood⟩ := hno g rfl hgne
          cases hcm : countMoves g with
          | none => exact absurd hcm hcmne
          | some xo =>
            obtain ⟨x, o⟩ := xo
            obtain ⟨hx0, hbal, hpx, hpo⟩ := hgood x o hcm
            refine ⟨⟨hlen, hrows, x, o, rfl, hx0, hbal⟩, ?_⟩
            rintro ⟨x2, o2, hcm2, hbad⟩
            injection hcm2 with hcm2
            injection hcm2 with h21 h22
            subst h21 h22
            rcases hbad with ⟨hp, hb⟩ | ⟨hp, hb⟩
            · have := hpx hp
              omega
            · have := hpo hp
              omega

/-- C9: (i) when the generic check came back falsy and the per-player
count guard passed, the 4x4 incremental check succeeds iff the corner
condition holds — the moved cell is itself one of the four corners and all
four corners hold the mover's mark — or some 2x2 block containing
(row,col), clipped at the board edges (anchor `a ≤ row ≤ a+1`,
`b ≤ col ≤ b+1`, `a, b ≤ 2`), has all four cells equal and non-empty;
(ii) in the play X(0,2) O(0,0) X(1,3) O(0,1) X(3,1) O(1,0) X(2,0) O(1,1),
O wins immediately upon completing the block {(0,0),(0,1),(1,0),(1,1)},
with no full row, column, diagonal or corner set. -/
theorem c9_extra_conditions :
    (∀ (e : Engine) (row col : Nat),
      optTruthy (absIsWinningMove e row col) = false →
      ¬((if e.current_player = Player.X then e.x_count else e.o_count) < e.size) →
      (isWinningMove4 e row col = true ↔
        (((row, col) ∈ cornersL
            ∧ ∀ rc ∈ cornersL, getCell e.board rc.1 rc.2 = e.current_player.value)
          ∨ ∃ a b, a ≤ 2 ∧ b ≤ 2 ∧ a ≤ row ∧ row ≤ a + 1 ∧ b ≤ col ∧ col ≤ b + 1
              ∧ getCell e.board a b ≠ ""
              ∧ getCell e.board a (b + 1) = getCell e.board a b
              ∧ getCell e.board (a + 1) b = getCell e.board a b
              ∧ getCell e.board (a + 1) (b + 1) = getCell e.board a b)))
    ∧ (playFromEmpty [(0, 2), (0, 0), (1, 3), (0, 1), (3, 1), (1, 0), (2, 0)]).winner = none
    ∧ (playFromEmpty [(0, 2), (0, 0), (1, 3), (0, 1), (3, 1), (1, 0), (2, 0), (1, 1)]).winner
        = some Player.O := by
  refine ⟨?_, by decide, by decide⟩
  intro e row col habs hpc
  unfold isWinningMove4
  rw [habs, if_neg (show ¬(false = true) from by simp), if_neg hpc, extra4_iff]
  constructor
  · rintro (hcor | hbox)
    · exact Or.inl hcor
    · rw [isWinning2x2Move_iff] at hbox
      obtain ⟨a, b, h1, h2, h3, h4, h5, h6, hfill⟩ := hbox
      rw [isBox2x2Filled_iff] at hfill
      exact Or.inr ⟨a, b, h1, h2, h3, h4, h5, h6,
        hfill.1, hfill.2.1, hfill.2.2.1, hfill.2.2.2⟩
  · rintro (hcor | ⟨a, b, h1, h2, h3, h4, h5, h6, k1, k2, k3, k4⟩)
    · exact Or.inl hcor
    · refine Or.inr ?_
      rw [isWinning2x2Move_iff]
      exact ⟨a, b, h1, h2, h3, h4, h5, h6,
        (isBox2x2Filled_iff e.board a b).mpr ⟨k1, k2, k3, k4⟩⟩

/-- C9 witness: the characterization applied at `c9State` (O has just
placed at (1,1), completing the block anchored at (0,0)). -/
theorem c9_witness :
    isWinningMove4 c9State 1 1 = true ↔
      (((1, 1) ∈ cornersL
          ∧ ∀ rc ∈ cornersL, getCell c9State.board rc.1 rc.2 = c9State.current_player.value)
        ∨ ∃ a b, a ≤ 2 ∧ b ≤ 2 ∧ a ≤ 1 ∧ 1 ≤ a + 1 ∧ b ≤ 1 ∧ 1 ≤ b + 1
            ∧ getCell c9State.board a b ≠ ""
            ∧ getCell c9State.board a (b + 1) = getCell c9State.board a b
            ∧ getCell c9State.board (a + 1) b = getCell c9State.board a b
            ∧ getCell c9State.board (a + 1) (b + 1) = getCell c9State.board a b) :=
  c9_extra_conditions.1 c9State 1 1 (by decide) (by decide)

/-- C10: construction from a supplied grid never rejects the grid for
already containing completed win shapes: whenever the (non-empty) grid
passes dimension/symbol/count validation, the 4x4 engine is produced (with
an inferred starting player), and for *every* successful construction from
a supplied grid the initial winner equals the fixed deterministic scan
order of the claim — rows/columns interleaved, main diagonal,
anti-diagonal, corners, then 2x2 blocks in row-major anchor order — the
player of the first uniform non-empty shape, or `None`. -/
theorem c10_init_winner_scan (g : List (List String)) :
    (∀ (cp : Option Player) (e : Engine),
      init4 (some g) cp = Except.ok e → e.winner = claimScanOrder g)
    ∧ (isValidBoard 4 g = true → ∃ e, init4 (some g) none = Except.ok e) := by
  constructor
  · intro cp e h
    unfold init4 initEngine at h
    rw [if_neg (by omega)] at h
    dsimp only at h
    by_cases hemp : g.isEmpty = true
    · obtain rfl := List.isEmpty_iff.mp hemp
      rw [if_pos hemp] at h
      injection h with hh
      subst hh
      rw [claimScanOrder_nil]
      rfl
    · rw [if_neg hemp] at h
      obtain ⟨hb, hsz, hw⟩ := initFromState_spec checkWinner4 g cp e h
      have hinv : EngineInv e := inv_initFromState checkWinner4 g cp e h
      have hinv0 : EngineInv { e with winner := none } := inv_set_winner e none hinv
      rw [hw, checkWinner4_eq_NG _ hinv0,
        checkWinner4NG_eq_claimScan _ hinv0.dims hinv0.clean hinv0.size_eq rfl]
      rw [show ({ e with winner := none } : Engine).board = e.board from rfl, hb]
  · intro hv
    unfold init4 initEngine
    rw [if_neg (by omega)]
    dsimp only
    have hlen : g.length = 4 := (isValidBoard_dest 4 g hv).1
    rw [if_neg (by
      intro hemp
      obtain rfl := List.isEmpty_iff.mp hemp
      simp at hlen)]
    exact initFromState_ok_of_valid checkWinner4 g hv

/-- C10 witness: the grid with X's full first row and O's full second row
passes validation, constructs, and the winner is X — row 0 is the first
uniform shape in scan order. -/
theorem c10_witness :
    ∃ e, init4 (some c10Grid) none = Except.ok e ∧ e.winner = claimScanOrder c10Grid := by
  obtain ⟨e, he⟩ := (c10_init_winner_scan c10Grid).2 (by decide)
  exact ⟨e, he, (c10_init_winner_scan c10Grid).1 none e he⟩
